import Mathlib

/-!
# Verification of the exchange order-book core

A shallow embedding of the `exchange` repository's core components:

* `src/order/src/lib.rs`           — sides, order types, order states, orders
* `src/instruments/src/instrument.rs` — instruments
* `src/market/src/lib.rs`          — the per-instrument limit order book
* `src/oep/src/*.rs`               — the OEP wire codec
* `src/matching_engine/src/processor.rs` — datagram dispatch and processing
* `src/clearing_connection/src/clearprotocol.rs` — the CP codec
* `src/gateway/src/main.rs`        — the client read-loop error handling

Machine integers (`u8/u16/u32/u64`) are modelled as `Nat`; the one place the
claims exercise wrap-around behaviour (the `100 - percentage_bands` unsigned
subtraction in the band check) is modelled explicitly as a panic on underflow,
matching Rust's checked (debug) semantics.  Rust panics (failed `assert!`,
`unwrap` on a failed publish, out-of-bounds slicing) are modelled by the
`MRes.panic` constructor.  The feed disseminator is abstracted by a single
boolean `pubOk`: `true` means every `send_*` call returns `Ok`, `false` means
every call returns `Err` (which the market code unwraps).
-/

namespace Exchange

/-- `Side` from `src/order/src/lib.rs`. -/
inductive Side where
  | bid
  | ask
deriving DecidableEq, Repr

/-- `OrderType` from `src/order/src/lib.rs`. -/
inductive OrderType where
  | day
  | market
  | fillAndKill
  | fillOrKill
  | postOrKill
  | goodTillCancel
  | goodTillDate
  | stopLoss
  | stopLimit
deriving DecidableEq, Repr

/-- `OrderState` from `src/order/src/lib.rs`. -/
inductive OrderState where
  | inserted
  | modified
  | cancelled
  | rejected
  | traded
  | partiallyTraded
deriving DecidableEq, Repr

/-- `InstrumentState` from `src/instruments/src/instrument.rs`. -/
inductive InstrumentState where
  | trading
  | closed
  | auction
deriving DecidableEq, Repr

/-- `InstrumentType` from `src/instruments/src/instrument.rs`. -/
inductive InstrumentType where
  | share
  | optionCall
  | optionPut
  | future
  | warrant
deriving DecidableEq, Repr

/-- `Instrument` (`src/instruments/src/instrument.rs`).  The `name` string is
kept as its raw UTF-8 bytes. -/
structure Instrument where
  id : Nat
  name : List Nat
  itype : InstrumentType
  state : InstrumentState
  percentageBands : Nat
  percentageVariationAllowed : Nat
deriving DecidableEq, Repr

/-- `Instrument::new` — stores the fields unchecked (no range check on
`percentage_bands`). -/
def Instrument.new (id : Nat) (name : List Nat) (itype : InstrumentType)
    (state : InstrumentState) (percentageBands : Nat)
    (percentageVariationAllowed : Nat) : Instrument :=
  ⟨id, name, itype, state, percentageBands, percentageVariationAllowed⟩

/-- Result of a Rust computation that can panic (failed assertion, failed
`unwrap`, arithmetic underflow in debug builds, out-of-bounds slice). -/
inductive MRes (α : Type) where
  | ok (val : α)
  | panic
deriving DecidableEq, Repr

/-- `Instrument::set_percentage_bands` — `assert!(percentage_bands <= 100)`
then store. -/
def Instrument.setPercentageBands (i : Instrument) (bands : Nat) :
    MRes Instrument :=
  if bands ≤ 100 then .ok { i with percentageBands := bands } else .panic

/-- `Order` (`src/order/src/lib.rs`).  The `instrument` field of the Rust
struct is a shared handle; only its instrument id is ever compared, so the
embedding stores the id. -/
structure Order where
  id : Nat
  participant : Nat
  instrument : Nat
  price : Nat
  quantity : Nat
  side : Side
  orderType : OrderType
  gatewayId : Nat
  sessionId : Nat
deriving DecidableEq, Repr

/-- `oep::trade::Trade` (`src/oep/src/trade.rs`), as published on the feed. -/
structure Trade where
  bidOrderId : Nat
  askOrderId : Nat
  price : Nat
  quantity : Nat
deriving DecidableEq, Repr

/-- `Market` (`src/market/src/lib.rs`). -/
structure Market where
  instrument : Instrument
  bids : List Order
  asks : List Order
  orderId : Nat
  bidsOps : Nat
  asksOps : Nat
deriving DecidableEq, Repr

/-- `Market::new`. -/
def Market.new (instrument : Instrument) : Market :=
  ⟨instrument, [], [], 0, 0, 0⟩

/-- `REARRANGE_THRESHOLD` in `src/market/src/lib.rs`. -/
def REARRANGE_THRESHOLD : Nat := 10000

/-- The price comparison used by a bid aggressor against resting asks:
`order.price.ge(&top.price)`. -/
def bidComp (oprice topPrice : Nat) : Bool := topPrice ≤ oprice

/-- The price comparison used by an ask aggressor against resting bids:
`order.price.le(&top.price)`. -/
def askComp (oprice topPrice : Nat) : Bool := oprice ≤ topPrice

/-- The `while` loop of the `trade_and_add!` macro in `Market::add_order`:
repeatedly trade the aggressor `o` against the front of the opposite-side
queue while it crosses, emitting a feed `Trade` per fill.  Returns the
leftover aggressor, the remaining opposite queue and the emitted trades in
order.  `pubOk = false` makes `publish_trade` fail, which the source
unwraps (panic). -/
def matchLoop (pubOk : Bool) (comp : Nat → Nat → Bool) (o : Order)
    (book : List Order) : MRes (Order × List Order × List Trade) :=
  match book with
  | [] => .ok (o, [], [])
  | top :: rest =>
    if hg : 0 < o.quantity ∧ (comp o.price top.price || o.orderType == OrderType.market) = true then
      let vol := min top.quantity o.quantity
      let o1 := { o with quantity := o.quantity - vol }
      let p := { top with quantity := top.quantity - vol }
      let t : Trade :=
        { bidOrderId := if o.side = Side.bid then o1.id else p.id
          askOrderId := if o.side = Side.ask then o1.id else p.id
          price := p.price
          quantity := vol }
      if pubOk then
        if hp : 0 < p.quantity then
          match matchLoop pubOk comp o1 (p :: rest) with
          | .ok (o2, book2, ts) => .ok (o2, book2, t :: ts)
          | .panic => .panic
        else
          match matchLoop pubOk comp o1 rest with
          | .ok (o2, book2, ts) => .ok (o2, book2, t :: ts)
          | .panic => .panic
      else .panic
    else .ok (o, top :: rest, [])
termination_by (book.length, o.quantity)
decreasing_by
  · apply Prod.Lex.right
    simp only [p, vol, o1] at hp ⊢
    omega
  · apply Prod.Lex.left
    simp only [List.length_cons]
    omega

/-- The position scan of the `fit_into_position!` macro in
`Market::insert_into_right_position`: index of the first resident whose price
satisfies `comp` against the incoming price. -/
def fitPosition (comp : Nat → Nat → Bool) (oprice : Nat) : List Order → Nat
  | [] => 0
  | b :: rest => if comp b.price oprice then 0 else fitPosition comp oprice rest + 1

/-- `Market::insert_into_right_position` — bids use `lt`, asks use `gt`. -/
def insertIntoRightPosition (m : Market) (o : Order) : Market :=
  match o.side with
  | .bid =>
      { m with bids := m.bids.insertIdx (fitPosition (fun bp op => bp < op) o.price m.bids) o }
  | .ask =>
      { m with asks := m.asks.insertIdx (fitPosition (fun bp op => op < bp) o.price m.asks) o }

/-- The epilogue of the `trade_and_add!` macro: classify the leftover
aggressor after the match loop and, for standing order types, insert it into
its own side (publishing a NewOrder event when no fill occurred). -/
def finishAdd (pubOk : Bool) (m : Market) (o : Order) (ts : List Trade) :
    MRes ((OrderState × Nat) × Market × List Trade) :=
  if o.quantity = 0 then .ok ((.traded, o.id), m, ts)
  else
    match o.orderType with
    | .fillAndKill | .fillOrKill => .ok ((.cancelled, o.id), m, ts)
    | .market =>
        match ts.length with
        | 0 => .ok ((.cancelled, o.id), m, ts)
        | _ + 1 => .ok ((.traded, o.id), m, ts)
    | _ =>
        let m1 := insertIntoRightPosition m o
        if 0 < ts.length then .ok ((.partiallyTraded, o.id), m1, ts)
        else if pubOk then .ok ((.inserted, o.id), m1, ts)
        else .panic

/-- The out-of-bands check of `Market::add_order` (source lines 93–104),
under checked (debug) u64 semantics in Rust evaluation order.  Returns `true`
when the order must be rejected.  `best_bid + best_ask` panics on u64
overflow; `100 - percentage_bands` panics on underflow when the bands exceed
100; each `midpoint * (100 ∓ bands)` product panics on u64 overflow, the
upper-bound product only when the short-circuiting `||` reaches it. -/
def bandCheck (m : Market) (o : Order) : MRes Bool :=
  match m.bids, m.asks with
  | bb :: _, ba :: _ =>
    if o.orderType ≠ OrderType.market then
      if 2 ^ 64 ≤ bb.price + ba.price then .panic
      else
        let midpoint := (bb.price + ba.price) / 2
        if 100 < m.instrument.percentageBands then .panic
        else if 2 ^ 64 ≤ midpoint * (100 - m.instrument.percentageBands) then .panic
        else if o.price < midpoint * (100 - m.instrument.percentageBands) / 100 then .ok true
        else if 2 ^ 64 ≤ midpoint * (100 + m.instrument.percentageBands) then .panic
        else .ok (decide (midpoint * (100 + m.instrument.percentageBands) / 100 < o.price))
    else .ok false
  | _, _ => .ok false

/-- The compaction step of `Market::add_order` (source lines 106–112);
`make_contiguous` does not change the queue contents, only the counters. -/
def maintenance (m : Market) : Market :=
  if REARRANGE_THRESHOLD < m.bidsOps then { m with bidsOps := 0 }
  else if REARRANGE_THRESHOLD < m.asksOps then { m with asksOps := 0 }
  else m

/-- `Market::add_order`.  Returns the `(OrderState, u64)` pair of the source
together with the updated market and the trades published on the feed. -/
def addOrder (pubOk : Bool) (m : Market) (o : Order) :
    MRes ((OrderState × Nat) × Market × List Trade) :=
  if m.instrument.id ≠ o.instrument then .panic
  else if m.instrument.state = InstrumentState.closed then .ok ((.rejected, 0), m, [])
  else
    let m1 := { m with orderId := m.orderId + 1 }
    let o1 := { o with id := m1.orderId }
    if o1.quantity = 0 ∨ (o1.price = 0 ∧ o1.orderType ≠ OrderType.market) then
      .ok ((.rejected, 0), m1, [])
    else
      match bandCheck m1 o1 with
      | .panic => .panic
      | .ok true => .ok ((.rejected, 0), m1, [])
      | .ok false =>
        let m2 := maintenance m1
        match o1.side with
        | .bid =>
          let m3 := { m2 with bidsOps := m2.bidsOps + 1 }
          match matchLoop pubOk bidComp o1 m3.asks with
          | .panic => .panic
          | .ok (o2, asks2, ts) => finishAdd pubOk { m3 with asks := asks2 } o2 ts
        | .ask =>
          let m3 := { m2 with asksOps := m2.asksOps + 1 }
          match matchLoop pubOk askComp o1 m3.bids with
          | .panic => .panic
          | .ok (o2, bids2, ts) => finishAdd pubOk { m3 with bids := bids2 } o2 ts

/-- The resident-lookup predicate of `Market::modify_order`. -/
def modifyMatches (o x : Order) : Bool :=
  x.participant == o.participant && x.gatewayId == o.gatewayId &&
  x.sessionId == o.sessionId && x.id == o.id && x.orderType == o.orderType

/-- The resident-lookup predicate of `Market::cancel_order` (no order-type
comparison). -/
def cancelMatches (o x : Order) : Bool :=
  x.participant == o.participant && x.gatewayId == o.gatewayId &&
  x.sessionId == o.sessionId && x.id == o.id

/-- `iter().position(p)` together with the element found. -/
def findWithIdx (p : Order → Bool) : List Order → Option (Nat × Order)
  | [] => none
  | x :: rest =>
    if p x then some (0, x)
    else (findWithIdx p rest).map (fun r => (r.1 + 1, r.2))

/-- `Market::modify_order`. -/
def modifyOrder (pubOk : Bool) (m : Market) (o : Order) :
    MRes ((OrderState × Nat) × Market × List Trade) :=
  if o.instrument ≠ m.instrument.id then .panic
  else if o.quantity = 0 then .ok ((.rejected, 0), m, [])
  else
    let side := match o.side with | .bid => m.bids | .ask => m.asks
    match findWithIdx (modifyMatches o) side with
    | none => .ok ((.rejected, 0), m, [])
    | some (idx, resident) =>
      if o.price = resident.price then
        let updated := { resident with quantity := o.quantity }
        let m1 :=
          match o.side with
          | .bid => { m with bids := m.bids.set idx updated }
          | .ask => { m with asks := m.asks.set idx updated }
        if pubOk then .ok ((.modified, updated.id), m1, []) else .panic
      else
        if pubOk then
          let m1 :=
            match o.side with
            | .bid => { m with bids := m.bids.eraseIdx idx }
            | .ask => { m with asks := m.asks.eraseIdx idx }
          addOrder pubOk m1 o
        else .panic

/-- `Market::cancel_order`. -/
def cancelOrder (pubOk : Bool) (m : Market) (o : Order) :
    MRes (OrderState × Market) :=
  if o.instrument ≠ m.instrument.id then .panic
  else
    match o.side with
    | .bid =>
      let m1 := { m with bidsOps := m.bidsOps + 1 }
      match findWithIdx (cancelMatches o) m1.bids with
      | some (idx, _) =>
          if pubOk then .ok (.cancelled, { m1 with bids := m1.bids.eraseIdx idx })
          else .panic
      | none => .ok (.rejected, m1)
    | .ask =>
      let m1 := { m with asksOps := m.asksOps + 1 }
      match findWithIdx (cancelMatches o) m1.asks with
      | some (idx, _) =>
          if pubOk then .ok (.cancelled, { m1 with asks := m1.asks.eraseIdx idx })
          else .panic
      | none => .ok (.rejected, m1)

/-- The publish burst of `Market::close`: one `send_cancel_order` per
resident order, each unwrapped. -/
def publishCancelAll (pubOk : Bool) : List Order → MRes Unit
  | [] => .ok ()
  | _ :: rest => if pubOk then publishCancelAll pubOk rest else .panic

/-- `Market::close`. -/
def close (pubOk : Bool) (m : Market) : MRes Market :=
  let m1 := { m with instrument := { m.instrument with state := InstrumentState.closed } }
  match publishCancelAll pubOk (m1.bids ++ m1.asks) with
  | .ok _ => .ok { m1 with bids := [], asks := [] }
  | .panic => .panic

/-- The `(participant, gateway, session)` filter of
`Market::cancel_all_orders_for_session`. -/
def sessionMatches (participant gatewayId sessionId : Nat) (x : Order) : Bool :=
  x.participant == participant && x.gatewayId == gatewayId && x.sessionId == sessionId

/-- The cancellation sweep of `cancel_all_orders_for_session`: one
`cancel_order` per collected match, results discarded. -/
def cancelList (pubOk : Bool) (m : Market) : List Order → MRes Market
  | [] => .ok m
  | o :: rest =>
    match cancelOrder pubOk m o with
    | .ok r => cancelList pubOk r.2 rest
    | .panic => .panic

/-- `Market::cancel_all_orders_for_session` — returns the
`(order_id, book_id, side)` tuples of the matching orders plus the updated
market. -/
def cancelAllOrdersForSession (pubOk : Bool) (m : Market)
    (participant gatewayId sessionId : Nat) :
    MRes (List (Nat × Nat × Side) × Market) :=
  let bidMatches := m.bids.filter (sessionMatches participant gatewayId sessionId)
  let askMatches := m.asks.filter (sessionMatches participant gatewayId sessionId)
  match cancelList pubOk m (bidMatches ++ askMatches) with
  | .panic => .panic
  | .ok m1 =>
    let m2 := { m1 with bidsOps := m1.bidsOps + bidMatches.length
                        asksOps := m1.asksOps + askMatches.length }
    .ok ((bidMatches ++ askMatches).map (fun x => (x.id, x.instrument, x.side)), m2)

/-- One book operation for the invariant claims: the three public mutating
entry points exercised by claim C1. -/
inductive MarketOp where
  | add (o : Order)
  | modify (o : Order)
  | cancel (o : Order)
deriving DecidableEq, Repr

/-- Apply one operation, keeping only the market state. -/
def applyOp (pubOk : Bool) (m : Market) : MarketOp → MRes Market
  | .add o =>
    match addOrder pubOk m o with
    | .ok r => .ok r.2.1
    | .panic => .panic
  | .modify o =>
    match modifyOrder pubOk m o with
    | .ok r => .ok r.2.1
    | .panic => .panic
  | .cancel o =>
    match cancelOrder pubOk m o with
    | .ok r => .ok r.2
    | .panic => .panic

/-- Run a sequence of book operations from a starting market. -/
def runOps (pubOk : Bool) (m : Market) : List MarketOp → MRes Market
  | [] => .ok m
  | op :: rest =>
    match applyOp pubOk m op with
    | .ok m1 => runOps pubOk m1 rest
    | .panic => .panic

/-! ## OEP wire codec (`src/oep/`)

All OEP structs are `repr(packed)` and encoded/decoded by byte copy
(little-endian on the target).  The embedding spells the layout out as the
per-field little-endian serialization in declaration order, which is exactly
the byte image the Rust transmute produces (checked by the repository's own
`test_encode_decode` byte vectors). -/

/-- Little-endian serialization of `n` into `w` bytes. -/
def toLE : Nat → Nat → List Nat
  | 0, _ => []
  | w + 1, n => n % 256 :: toLE w (n / 256)

/-- Little-endian deserialization. -/
def fromLE : List Nat → Nat
  | [] => 0
  | b :: rest => b + 256 * fromLE rest

/-- `MsgType` from `src/oep/src/oep_message.rs`. -/
inductive MsgType where
  | newOrder
  | modify
  | cancel
  | executionReport
  | login
  | trade
  | sessionNotification
  | unknown
deriving DecidableEq, Repr

/-- `impl From<u16> for MsgType` (`src/oep/src/oep_message.rs`). -/
def msgTypeFromU16 (value : Nat) : MsgType :=
  match value with
  | 0 => .newOrder
  | 1 => .modify
  | 2 => .cancel
  | 3 => .executionReport
  | 4 => .login
  | 5 => .trade
  | 6 => .sessionNotification
  | _ => .unknown

/-- `OepHeader` (`src/oep/src/header.rs`): `{oep_version:u16, msg_type:u16,
msg_len:u32}`. -/
structure OepHeaderMsg where
  oepVersion : Nat
  msgType : Nat
  msgLen : Nat
deriving DecidableEq, Repr

def OEP_HEADER_SIZE : Nat := 8

def OepHeaderMsg.WF (m : OepHeaderMsg) : Prop :=
  m.oepVersion < 256 ^ 2 ∧ m.msgType < 256 ^ 2 ∧ m.msgLen < 256 ^ 4

def OepHeaderMsg.encode (m : OepHeaderMsg) : List Nat :=
  toLE 2 m.oepVersion ++ toLE 2 m.msgType ++ toLE 4 m.msgLen

def OepHeaderMsg.decode (b : List Nat) : OepHeaderMsg :=
  let r1 := b.drop 2
  let r2 := r1.drop 2
  { oepVersion := fromLE (b.take 2)
    msgType := fromLE (r1.take 2)
    msgLen := fromLE (r2.take 4) }

/-- `OepHeader::message_type` (`src/oep/src/header.rs`) — note the mapping
differs from `From<u16> for MsgType`: it knows nothing of `Trade` or
`SessionNotification`. -/
def OepHeaderMsg.messageType (m : OepHeaderMsg) : MsgType :=
  match m.msgType with
  | 0 => .newOrder
  | 1 => .modify
  | 2 => .cancel
  | 3 => .executionReport
  | 4 => .login
  | _ => .unknown

/-- `NewOrder` (`src/oep/src/neworder.rs`). -/
structure NewOrderMsg where
  clientOrderId : Nat
  participant : Nat
  bookId : Nat
  quantity : Nat
  price : Nat
  orderType : Nat
  side : Nat
  gatewayId : Nat
  sessionId : Nat
deriving DecidableEq, Repr

def NEWORDER_SIZE : Nat := 48

def NewOrderMsg.WF (m : NewOrderMsg) : Prop :=
  m.clientOrderId < 256 ^ 8 ∧ m.participant < 256 ^ 8 ∧ m.bookId < 256 ^ 8 ∧
  m.quantity < 256 ^ 8 ∧ m.price < 256 ^ 8 ∧ m.orderType < 256 ^ 2 ∧
  m.side < 256 ^ 1 ∧ m.gatewayId < 256 ^ 1 ∧ m.sessionId < 256 ^ 4

def NewOrderMsg.encode (m : NewOrderMsg) : List Nat :=
  toLE 8 m.clientOrderId ++ toLE 8 m.participant ++ toLE 8 m.bookId ++
  toLE 8 m.quantity ++ toLE 8 m.price ++ toLE 2 m.orderType ++
  toLE 1 m.side ++ toLE 1 m.gatewayId ++ toLE 4 m.sessionId

def NewOrderMsg.decode (b : List Nat) : NewOrderMsg :=
  let r1 := b.drop 8
  let r2 := r1.drop 8
  let r3 := r2.drop 8
  let r4 := r3.drop 8
  let r5 := r4.drop 8
  let r6 := r5.drop 2
  let r7 := r6.drop 1
  let r8 := r7.drop 1
  { clientOrderId := fromLE (b.take 8)
    participant := fromLE (r1.take 8)
    bookId := fromLE (r2.take 8)
    quantity := fromLE (r3.take 8)
    price := fromLE (r4.take 8)
    orderType := fromLE (r5.take 2)
    side := fromLE (r6.take 1)
    gatewayId := fromLE (r7.take 1)
    sessionId := fromLE (r8.take 4) }

/-- `Modify` (`src/oep/src/modify.rs`). -/
structure ModifyMsg where
  participant : Nat
  orderId : Nat
  bookId : Nat
  quantity : Nat
  price : Nat
  side : Nat
  gatewayId : Nat
  sessionId : Nat
deriving DecidableEq, Repr

def MODIFY_SIZE : Nat := 46

def ModifyMsg.WF (m : ModifyMsg) : Prop :=
  m.participant < 256 ^ 8 ∧ m.orderId < 256 ^ 8 ∧ m.bookId < 256 ^ 8 ∧
  m.quantity < 256 ^ 8 ∧ m.price < 256 ^ 8 ∧ m.side < 256 ^ 1 ∧
  m.gatewayId < 256 ^ 1 ∧ m.sessionId < 256 ^ 4

def ModifyMsg.encode (m : ModifyMsg) : List Nat :=
  toLE 8 m.participant ++ toLE 8 m.orderId ++ toLE 8 m.bookId ++
  toLE 8 m.quantity ++ toLE 8 m.price ++ toLE 1 m.side ++
  toLE 1 m.gatewayId ++ toLE 4 m.sessionId

def ModifyMsg.decode (b : List Nat) : ModifyMsg :=
  let r1 := b.drop 8
  let r2 := r1.drop 8
  let r3 := r2.drop 8
  let r4 := r3.drop 8
  let r5 := r4.drop 8
  let r6 := r5.drop 1
  let r7 := r6.drop 1
  { participant := fromLE (b.take 8)
    orderId := fromLE (r1.take 8)
    bookId := fromLE (r2.take 8)
    quantity := fromLE (r3.take 8)
    price := fromLE (r4.take 8)
    side := fromLE (r5.take 1)
    gatewayId := fromLE (r6.take 1)
    sessionId := fromLE (r7.take 4) }

/-- `Cancel` (`src/oep/src/cancel.rs`). -/
structure CancelMsg where
  participant : Nat
  orderId : Nat
  bookId : Nat
  side : Nat
  gatewayId : Nat
  sessionId : Nat
deriving DecidableEq, Repr

def CANCEL_SIZE : Nat := 30

def CancelMsg.WF (m : CancelMsg) : Prop :=
  m.participant < 256 ^ 8 ∧ m.orderId < 256 ^ 8 ∧ m.bookId < 256 ^ 8 ∧
  m.side < 256 ^ 1 ∧ m.gatewayId < 256 ^ 1 ∧ m.sessionId < 256 ^ 4

def CancelMsg.encode (m : CancelMsg) : List Nat :=
  toLE 8 m.participant ++ toLE 8 m.orderId ++ toLE 8 m.bookId ++
  toLE 1 m.side ++ toLE 1 m.gatewayId ++ toLE 4 m.sessionId

def CancelMsg.decode (b : List Nat) : CancelMsg :=
  let r1 := b.drop 8
  let r2 := r1.drop 8
  let r3 := r2.drop 8
  let r4 := r3.drop 1
  let r5 := r4.drop 1
  { participant := fromLE (b.take 8)
    orderId := fromLE (r1.take 8)
    bookId := fromLE (r2.take 8)
    side := fromLE (r3.take 1)
    gatewayId := fromLE (r4.take 1)
    sessionId := fromLE (r5.take 4) }

/-- `ExecutionReport` (`src/oep/src/execution_report.rs`). -/
structure ExecutionReportMsg where
  participant : Nat
  orderId : Nat
  submittedOrderId : Nat
  book : Nat
  quantity : Nat
  price : Nat
  flags : Nat
  side : Nat
  state : Nat
  sessionId : Nat
  gatewayId : Nat
deriving DecidableEq, Repr

def EXECUTIONREPORT_SIZE : Nat := 57

def ExecutionReportMsg.WF (m : ExecutionReportMsg) : Prop :=
  m.participant < 256 ^ 8 ∧ m.orderId < 256 ^ 8 ∧ m.submittedOrderId < 256 ^ 8 ∧
  m.book < 256 ^ 8 ∧ m.quantity < 256 ^ 8 ∧ m.price < 256 ^ 8 ∧
  m.flags < 256 ^ 2 ∧ m.side < 256 ^ 1 ∧ m.state < 256 ^ 1 ∧
  m.sessionId < 256 ^ 4 ∧ m.gatewayId < 256 ^ 1

def ExecutionReportMsg.encode (m : ExecutionReportMsg) : List Nat :=
  toLE 8 m.participant ++ toLE 8 m.orderId ++ toLE 8 m.submittedOrderId ++
  toLE 8 m.book ++ toLE 8 m.quantity ++ toLE 8 m.price ++ toLE 2 m.flags ++
  toLE 1 m.side ++ toLE 1 m.state ++ toLE 4 m.sessionId ++ toLE 1 m.gatewayId

def ExecutionReportMsg.decode (b : List Nat) : ExecutionReportMsg :=
  let r1 := b.drop 8
  let r2 := r1.drop 8
  let r3 := r2.drop 8
  let r4 := r3.drop 8
  let r5 := r4.drop 8
  let r6 := r5.drop 8
  let r7 := r6.drop 2
  let r8 := r7.drop 1
  let r9 := r8.drop 1
  let r10 := r9.drop 4
  { participant := fromLE (b.take 8)
    orderId := fromLE (r1.take 8)
    submittedOrderId := fromLE (r2.take 8)
    book := fromLE (r3.take 8)
    quantity := fromLE (r4.take 8)
    price := fromLE (r5.take 8)
    flags := fromLE (r6.take 2)
    side := fromLE (r7.take 1)
    state := fromLE (r8.take 1)
    sessionId := fromLE (r9.take 4)
    gatewayId := fromLE (r10.take 1) }

/-- `Login` (`src/oep/src/login.rs`): the `user`/`password` fixed byte arrays
and the 3 explicit padding bytes are kept as byte lists. -/
structure LoginMsg where
  participant : Nat
  sessionId : Nat
  gatewayId : Nat
  padding : List Nat
  user : List Nat
  password : List Nat
deriving DecidableEq, Repr

def LOGIN_SIZE : Nat := 144

def LoginMsg.WF (m : LoginMsg) : Prop :=
  m.participant < 256 ^ 8 ∧ m.sessionId < 256 ^ 4 ∧ m.gatewayId < 256 ^ 1 ∧
  m.padding.length = 3 ∧ m.user.length = 64 ∧ m.password.length = 64

def LoginMsg.encode (m : LoginMsg) : List Nat :=
  toLE 8 m.participant ++ toLE 4 m.sessionId ++ toLE 1 m.gatewayId ++
  m.padding ++ m.user ++ m.password

def LoginMsg.decode (b : List Nat) : LoginMsg :=
  let r1 := b.drop 8
  let r2 := r1.drop 4
  let r3 := r2.drop 1
  let r4 := r3.drop 3
  let r5 := r4.drop 64
  { participant := fromLE (b.take 8)
    sessionId := fromLE (r1.take 4)
    gatewayId := fromLE (r2.take 1)
    padding := r3.take 3
    user := r4.take 64
    password := r5.take 64 }

/-- The wire layout of `oep::trade::Trade` (`src/oep/src/trade.rs`); the
in-book `Trade` structure above carries the same fields. -/
def TRADE_SIZE : Nat := 32

def Trade.WF (m : Trade) : Prop :=
  m.bidOrderId < 256 ^ 8 ∧ m.askOrderId < 256 ^ 8 ∧ m.price < 256 ^ 8 ∧
  m.quantity < 256 ^ 8

def Trade.encode (m : Trade) : List Nat :=
  toLE 8 m.bidOrderId ++ toLE 8 m.askOrderId ++ toLE 8 m.price ++
  toLE 8 m.quantity

def Trade.decode (b : List Nat) : Trade :=
  let r1 := b.drop 8
  let r2 := r1.drop 8
  let r3 := r2.drop 8
  { bidOrderId := fromLE (b.take 8)
    askOrderId := fromLE (r1.take 8)
    price := fromLE (r2.take 8)
    quantity := fromLE (r3.take 8) }

/-- `SessionInfo` (`src/oep/src/sessioninfo.rs`). -/
structure SessionInfoMsg where
  participant : Nat
  sessionId : Nat
  gatewayId : Nat
deriving DecidableEq, Repr

def SESSIONINFO_SIZE : Nat := 13

def SessionInfoMsg.WF (m : SessionInfoMsg) : Prop :=
  m.participant < 256 ^ 8 ∧ m.sessionId < 256 ^ 4 ∧ m.gatewayId < 256 ^ 1

def SessionInfoMsg.encode (m : SessionInfoMsg) : List Nat :=
  toLE 8 m.participant ++ toLE 4 m.sessionId ++ toLE 1 m.gatewayId

def SessionInfoMsg.decode (b : List Nat) : SessionInfoMsg :=
  let r1 := b.drop 8
  let r2 := r1.drop 4
  { participant := fromLE (b.take 8)
    sessionId := fromLE (r1.take 4)
    gatewayId := fromLE (r2.take 1) }

/-- The message variants `oep_decode` can return. -/
inductive OepMsg where
  | login (m : LoginMsg)
  | newOrder (m : NewOrderMsg)
  | modify (m : ModifyMsg)
  | cancel (m : CancelMsg)
  | executionReport (m : ExecutionReportMsg)
deriving DecidableEq, Repr

/-- The `std::io::ErrorKind` values produced by `oep_decode`
(`src/oep/src/lib.rs`). -/
inductive OepError where
  | unexpectedEof
  | invalidData
  | unsupported
  | invalidInput
deriving DecidableEq, Repr

/-- `oep_decode` (`src/oep/src/lib.rs`).  The `buffer[OEP_HEADER_SIZE..]`
slice is converted to a fixed-size array by `try_into`, which demands that
exactly the payload size remain after the header; a longer tail is an
`InvalidData` error (`convert_slicing_error`). -/
def oepDecode (buffer : List Nat) : Except OepError OepMsg :=
  if buffer.length < OEP_HEADER_SIZE then .error .unexpectedEof
  else
    let header := OepHeaderMsg.decode (buffer.take OEP_HEADER_SIZE)
    if buffer.length < header.msgLen + OEP_HEADER_SIZE then .error .unexpectedEof
    else
      let inner := buffer.drop OEP_HEADER_SIZE
      match header.messageType with
      | .login =>
          if inner.length = LOGIN_SIZE then .ok (.login (LoginMsg.decode inner))
          else .error .invalidData
      | .newOrder =>
          if inner.length = NEWORDER_SIZE then .ok (.newOrder (NewOrderMsg.decode inner))
          else .error .invalidData
      | .modify =>
          if inner.length = MODIFY_SIZE then .ok (.modify (ModifyMsg.decode inner))
          else .error .invalidData
      | .cancel =>
          if inner.length = CANCEL_SIZE then .ok (.cancel (CancelMsg.decode inner))
          else .error .invalidData
      | .executionReport =>
          if inner.length = EXECUTIONREPORT_SIZE then
            .ok (.executionReport (ExecutionReportMsg.decode inner))
          else .error .invalidData
      | .trade => .error .unsupported
      | _ => .error .invalidInput

/-- What the gateway client read loop does with one `oep_decode` attempt
(`src/gateway/src/main.rs`, lines 183–268): a decoded message is handled, an
`UnexpectedEof` with bytes still arriving keeps buffering (`r` is the byte
count of the read that just completed; `r = 0` is EOF and closes), and any
other error closes the client session. -/
inductive GatewayAction where
  | handleMessage (m : OepMsg)
  | keepBuffering
  | closeSession
deriving DecidableEq, Repr

def gatewayReadReaction (res : Except OepError OepMsg) (r : Nat) : GatewayAction :=
  match res with
  | .ok m => .handleMessage m
  | .error .unexpectedEof => if r = 0 then .closeSession else .keepBuffering
  | .error _ => .closeSession

/-! ## Matching-engine dispatcher (`src/matching_engine/src/processor.rs`) -/

/-- `impl From<u8> for Side` (`src/order/src/lib.rs`): everything other than
0 is an ask. -/
def Side.fromU8 (value : Nat) : Side :=
  match value with
  | 0 => .bid
  | _ => .ask

/-- `impl Into<u8> for Side`. -/
def Side.intoU8 : Side → Nat
  | .bid => 0
  | .ask => 1

/-- `impl From<u16> for OrderType` (`src/order/src/lib.rs`). -/
def OrderType.fromU16 (value : Nat) : OrderType :=
  match value with
  | 0 => .day
  | 1 => .market
  | 2 => .fillAndKill
  | 3 => .fillOrKill
  | 4 => .postOrKill
  | 5 => .goodTillCancel
  | 6 => .goodTillDate
  | 7 => .stopLoss
  | 8 => .stopLimit
  | _ => .stopLimit

/-- `impl Into<u8> for OrderState`. -/
def OrderState.intoU8 : OrderState → Nat
  | .inserted => 0
  | .modified => 1
  | .cancelled => 2
  | .rejected => 3
  | .traded => 4
  | .partiallyTraded => 5

/-- `MessageWrapper` (`src/matching_engine/src/processor.rs`). -/
inductive MessageWrapper where
  | newOrder (m : NewOrderMsg)
  | modify (m : ModifyMsg)
  | cancel (m : CancelMsg)
  | killSession (m : SessionInfoMsg)
deriving DecidableEq, Repr

/-- `HEADER_SIZE` in `src/matching_engine/src/processor.rs`: the 4-byte local
datagram header. -/
def ME_HEADER_SIZE : Nat := 4

/-- The result of `decode_message`: `Ok`, `bail!` (`anyhow` error), or a
panic from a failed `assert_eq!`/`expect` (wrong datagram length). -/
inductive MEDecode where
  | ok (w : MessageWrapper) (bookId : Nat)
  | err
  | panic
deriving DecidableEq, Repr

/-- `decode_message` (`src/matching_engine/src/processor.rs`): the first byte
of the datagram is fed through `From<u16> for MsgType` and dispatched; the
`assert_eq!` on the datagram length panics on mismatch; any type other than
`NewOrder`/`Modify`/`Cancel`/`SessionNotification` bails. -/
def decodeMessage (buffer : List Nat) : MEDecode :=
  match buffer with
  | [] => .panic
  | b0 :: _ =>
    match msgTypeFromU16 b0 with
    | .newOrder =>
        if buffer.length = ME_HEADER_SIZE + NEWORDER_SIZE then
          let o := NewOrderMsg.decode (buffer.drop ME_HEADER_SIZE)
          .ok (.newOrder o) o.bookId
        else .panic
    | .modify =>
        if buffer.length = ME_HEADER_SIZE + MODIFY_SIZE then
          let o := ModifyMsg.decode (buffer.drop ME_HEADER_SIZE)
          .ok (.modify o) o.bookId
        else .panic
    | .cancel =>
        if buffer.length = ME_HEADER_SIZE + CANCEL_SIZE then
          let o := CancelMsg.decode (buffer.drop ME_HEADER_SIZE)
          .ok (.cancel o) o.bookId
        else .panic
    | .sessionNotification =>
        if buffer.length = ME_HEADER_SIZE + SESSIONINFO_SIZE then
          let o := SessionInfoMsg.decode (buffer.drop ME_HEADER_SIZE)
          .ok (.killSession o) 0
        else .panic
    | _ => .err

/-- `process_message` (`src/matching_engine/src/processor.rs`): run the
matching operation on the supplied market and build the execution reports. -/
def processMessage (pubOk : Bool) (market : Market) (msg : MessageWrapper) :
    MRes (List ExecutionReportMsg × Market) :=
  match msg with
  | .newOrder m =>
    if market.instrument.id ≠ m.bookId ∨ m.participant = 0 then
      .ok ([{ participant := m.participant, orderId := m.clientOrderId
              submittedOrderId := m.clientOrderId, book := m.bookId
              quantity := m.quantity, price := m.price, flags := 0
              side := m.side, state := OrderState.rejected.intoU8
              sessionId := m.sessionId, gatewayId := m.gatewayId }], market)
    else
      let o : Order :=
        { id := 0, participant := m.participant, instrument := market.instrument.id
          price := m.price, quantity := m.quantity, side := Side.fromU8 m.side
          orderType := OrderType.fromU16 m.orderType, gatewayId := m.gatewayId
          sessionId := m.sessionId }
      match addOrder pubOk market o with
      | .panic => .panic
      | .ok ((state, id), market1, _) =>
        .ok ([{ participant := m.participant, orderId := id
                submittedOrderId := m.clientOrderId, book := m.bookId
                quantity := m.quantity, price := m.price, flags := 0
                side := m.side, state := state.intoU8
                sessionId := m.sessionId, gatewayId := m.gatewayId }], market1)
  | .modify m =>
    if market.instrument.id ≠ m.bookId ∨ m.participant = 0 then
      .ok ([{ participant := m.participant, orderId := m.orderId
              submittedOrderId := m.orderId, book := m.bookId
              quantity := m.quantity, price := m.price, flags := 0
              side := m.side, state := OrderState.rejected.intoU8
              sessionId := m.sessionId, gatewayId := m.gatewayId }], market)
    else
      let o : Order :=
        { id := m.orderId, participant := m.participant
          instrument := market.instrument.id, price := m.price
          quantity := m.quantity, side := Side.fromU8 m.side
          orderType := OrderType.day, gatewayId := m.gatewayId
          sessionId := m.sessionId }
      match modifyOrder pubOk market o with
      | .panic => .panic
      | .ok ((state, id), market1, _) =>
        .ok ([{ participant := m.participant, orderId := id
                submittedOrderId := m.orderId, book := m.bookId
                quantity := m.quantity, price := m.price, flags := 0
                side := m.side, state := state.intoU8
                sessionId := m.sessionId, gatewayId := m.gatewayId }], market1)
  | .cancel m =>
    if market.instrument.id ≠ m.bookId ∨ m.participant = 0 then
      .ok ([{ participant := m.participant, orderId := m.orderId
              submittedOrderId := m.orderId, book := m.bookId
              quantity := 0, price := 0, flags := 0
              side := m.side, state := OrderState.rejected.intoU8
              sessionId := m.sessionId, gatewayId := m.gatewayId }], market)
    else
      let o : Order :=
        { id := m.orderId, participant := m.participant
          instrument := market.instrument.id, price := 0, quantity := 0
          side := Side.fromU8 m.side, orderType := OrderType.day
          gatewayId := m.gatewayId, sessionId := m.sessionId }
      match cancelOrder pubOk market o with
      | .panic => .panic
      | .ok (state, market1) =>
        .ok ([{ participant := m.participant, orderId := m.orderId
                submittedOrderId := m.orderId, book := m.bookId
                quantity := 0, price := 0, flags := 0
                side := m.side, state := state.intoU8
                sessionId := m.sessionId, gatewayId := m.gatewayId }], market1)
  | .killSession m =>
    match cancelAllOrdersForSession pubOk market m.participant m.gatewayId m.sessionId with
    | .panic => .panic
    | .ok (v, market1) =>
      .ok (v.map (fun i =>
            { participant := m.participant, orderId := i.1
              submittedOrderId := i.1, book := i.2.1
              quantity := 0, price := 0, flags := 0
              side := i.2.2.intoU8, state := OrderState.cancelled.intoU8
              sessionId := m.sessionId, gatewayId := m.gatewayId }), market1)

/-! ## Clear protocol (`src/clearing_connection/src/clearprotocol.rs`) -/

/-- `impl Into<u8> for InstrumentType`. -/
def InstrumentType.intoU8 : InstrumentType → Nat
  | .share => 0
  | .optionCall => 1
  | .optionPut => 2
  | .future => 3
  | .warrant => 4

/-- `impl Into<u8> for InstrumentState`. -/
def InstrumentState.intoU8 : InstrumentState → Nat
  | .trading => 0
  | .closed => 1
  | .auction => 2

/-- The instrument-type byte match inside `process_one_data_entry` (same
mapping as `From<u8> for InstrumentType`). -/
def InstrumentType.fromU8 (value : Nat) : InstrumentType :=
  match value with
  | 0 => .share
  | 1 => .optionCall
  | 2 => .optionPut
  | 3 => .future
  | 4 => .warrant
  | _ => .share

/-- The instrument-state byte match inside `process_one_data_entry` (same
mapping as `From<u8> for InstrumentState`). -/
def InstrumentState.fromU8 (value : Nat) : InstrumentState :=
  match value with
  | 0 => .trading
  | 1 => .closed
  | 2 => .auction
  | _ => .closed

/-- `Instrument::encode` (`src/instruments/src/instrument.rs`). -/
def instrumentEncode (i : Instrument) : List Nat :=
  toLE 8 i.id ++
  [i.itype.intoU8, i.state.intoU8, i.percentageBands, i.percentageVariationAllowed] ++
  i.name

/-- `ProtocolSide` (`src/clearing_connection/src/genericclearingprotocol.rs`). -/
inductive ProtocolSide where
  | client
  | server
deriving DecidableEq, Repr

def CLEAR_PROTOCOL_VERSION : Nat := 1

/-- The state of a `ClearProtocol`: the instrument catalog and the market
map.  In the source instruments are shared `Rc<RefCell<_>>` cells, so an
in-place catalog update is observed by the market holding the same cell; the
embedding mirrors that by rewriting the market's instrument on update. -/
structure CPState where
  instruments : List Instrument
  markets : List (Nat × Market)
  protocolSide : ProtocolSide
deriving DecidableEq, Repr

/-- `ClearProtocol::new` starts as a client with the supplied (here: empty)
catalog. -/
def CPState.new : CPState := ⟨[], [], .client⟩

/-- `InstrumentList::add_instrument`
(`src/instruments/src/instrumentlist.rs`): insert, or overwrite the existing
shared instrument in place (observed by every holder of the `Rc`). -/
def cpAddInstrument (st : CPState) (i : Instrument) : CPState :=
  if st.instruments.any (fun x => x.id == i.id) then
    { st with
      instruments := st.instruments.map (fun x => if x.id == i.id then i else x)
      markets := st.markets.map (fun p =>
        if p.1 == i.id then (p.1, { p.2 with instrument := i }) else p) }
  else { st with instruments := st.instruments ++ [i] }

/-- `ClearProtocol::prepare_instrument_update_response`: a `[]` result when
the `u16` length conversion fails (`unwrap_or_default` gives 0). -/
def prepareInstrumentUpdateResponse (i : Instrument) : List Nat :=
  if 65535 < 12 + i.name.length then []
  else [67, 80, CLEAR_PROTOCOL_VERSION, 1, 1, 0] ++ toLE 2 (12 + i.name.length) ++
       instrumentEncode i

/-- Result of the CP entry/loop processing: `Ok((response, consumed))` plus
the updated protocol state, a `ProcessError`, or a Rust panic (out-of-bounds
slice or `usize` underflow in `truncate`). -/
inductive CPRes where
  | ok (response : List Nat) (consumed : Nat) (st : CPState)
  | err
  | panic
deriving DecidableEq, Repr

/-- `ClearProtocol::process_one_data_entry`.  String UTF-8 validation of the
instrument name is not modelled (the name is kept as raw bytes); all other
partiality (short slices, the `data_len - 12` underflow) is explicit. -/
def processOneDataEntry (st : CPState) (buffer : List Nat) : CPRes :=
  match buffer with
  | t0 :: t1 :: l0 :: l1 :: _ =>
    let dataType := t0 + 256 * t1
    let dataLen := l0 + 256 * l1
    if buffer.length < dataLen + 4 then .ok [] 0 st
    else
      match dataType with
      | 0 => .ok [] 4 st
      | 1 =>
        if buffer.length < dataLen + 4 then .ok [] 0 st
        else if buffer.length < 14 then .panic
        else
          let id := fromLE ((buffer.drop 4).take 8)
          let itype := InstrumentType.fromU8 (buffer.getD 12 0)
          let istate := InstrumentState.fromU8 (buffer.getD 13 0)
          match st.protocolSide with
          | .client =>
            if buffer.length < 16 ∨ dataLen < 12 then .panic
            else
              let bands := buffer.getD 14 0
              let variation := buffer.getD 15 0
              let name := (buffer.drop 16).take (dataLen - 12)
              let instrument := Instrument.new id name itype istate bands variation
              let st1 := cpAddInstrument st instrument
              if st1.markets.any (fun p => p.1 == id) then .ok [] (4 + dataLen) st1
              else
                .ok [] (4 + dataLen)
                  { st1 with markets := st1.markets ++ [(id, Market.new instrument)] }
          | .server => .ok [] (4 + dataLen) st
      | 2 =>
        if buffer.length < 12 then .ok [] 0 st
        else
          let id := fromLE ((buffer.drop 4).take 8)
          match st.instruments.find? (fun x => x.id == id) with
          | some instrument => .ok (prepareInstrumentUpdateResponse instrument) 12 st
          | none => .ok [] 12 st
      | 3 =>
        .ok ((st.instruments.map prepareInstrumentUpdateResponse).flatten) 4 st
      | _ => .err
  | _ => .panic

/-- The `while` loop of `ClearProtocol::process`: process up to `entries`
entries, stopping at the first one that reports zero bytes consumed. -/
def cpLoop (st : CPState) (buffer : List Nat) (processedBytes entries : Nat)
    (response : List Nat) : CPRes :=
  if h : 4 ≤ buffer.length - processedBytes ∧ 0 < entries then
    match processOneDataEntry st (buffer.drop processedBytes) with
    | .panic => .panic
    | .err => .err
    | .ok oneResponse pbytes st1 =>
      if pbytes = 0 then .ok response processedBytes st1
      else cpLoop st1 buffer (processedBytes + pbytes) (entries - 1) (response ++ oneResponse)
  else .ok response processedBytes st
termination_by entries
decreasing_by omega

/-- `ClearProtocol::process`. -/
def cpProcess (st : CPState) (buffer : List Nat) : CPRes :=
  if buffer.length < 8 then .ok [] 0 st
  else if buffer.getD 0 0 ≠ 67 ∨ buffer.getD 1 0 ≠ 80 then .err
  else if buffer.getD 2 0 ≠ CLEAR_PROTOCOL_VERSION then .err
  else cpLoop st buffer 4 (buffer.getD 3 0) []

/-! ## Little-endian codec lemmas -/

theorem toLE_length (w n : Nat) : (toLE w n).length = w := by
  induction w generalizing n with
  | zero => simp [toLE]
  | succ w ih => simp [toLE, ih]

theorem fromLE_toLE {w n : Nat} (h : n < 256 ^ w) : fromLE (toLE w n) = n := by
  induction w generalizing n with
  | zero => simp only [pow_zero, Nat.lt_one_iff] at h; simp [toLE, fromLE, h]
  | succ w ih =>
    have hdiv : n / 256 < 256 ^ w := by
      apply Nat.div_lt_of_lt_mul
      rw [mul_comm, ← pow_succ]
      exact h
    simp only [toLE, fromLE, ih hdiv]
    omega

theorem take_append_len {α : Type} (l₁ l₂ : List α) (k : Nat)
    (h : l₁.length = k) : (l₁ ++ l₂).take k = l₁ := by
  subst h; simp

theorem drop_append_len {α : Type} (l₁ l₂ : List α) (k : Nat)
    (h : l₁.length = k) : (l₁ ++ l₂).drop k = l₂ := by
  subst h; simp

theorem take_len_exact {α : Type} {l : List α} {k : Nat} (h : l.length = k) :
    l.take k = l := by
  subst h; simp

theorem take_toLE (w n : Nat) (l : List Nat) : (toLE w n ++ l).take w = toLE w n :=
  take_append_len _ _ _ (toLE_length w n)

theorem drop_toLE (w n : Nat) (l : List Nat) : (toLE w n ++ l).drop w = l :=
  drop_append_len _ _ _ (toLE_length w n)

theorem take_toLE_exact (w n : Nat) : (toLE w n).take w = toLE w n :=
  take_len_exact (toLE_length w n)

theorem oepHeader_decode_encode {m : OepHeaderMsg} (h : m.WF) :
    OepHeaderMsg.decode m.encode = m := by
  obtain ⟨h1, h2, h3⟩ := h
  simp only [OepHeaderMsg.encode, OepHeaderMsg.decode, List.append_assoc,
    drop_toLE, take_toLE, take_toLE_exact, fromLE_toLE h1, fromLE_toLE h2,
    fromLE_toLE h3]

theorem newOrder_decode_encode {m : NewOrderMsg} (h : m.WF) :
    NewOrderMsg.decode m.encode = m := by
  obtain ⟨h1, h2, h3, h4, h5, h6, h7, h8, h9⟩ := h
  simp only [NewOrderMsg.encode, NewOrderMsg.decode, List.append_assoc,
    drop_toLE, take_toLE, take_toLE_exact, fromLE_toLE h1, fromLE_toLE h2,
    fromLE_toLE h3, fromLE_toLE h4, fromLE_toLE h5, fromLE_toLE h6,
    fromLE_toLE h7, fromLE_toLE h8, fromLE_toLE h9]

theorem modify_decode_encode {m : ModifyMsg} (h : m.WF) :
    ModifyMsg.decode m.encode = m := by
  obtain ⟨h1, h2, h3, h4, h5, h6, h7, h8⟩ := h
  simp only [ModifyMsg.encode, ModifyMsg.decode, List.append_assoc,
    drop_toLE, take_toLE, take_toLE_exact, fromLE_toLE h1, fromLE_toLE h2,
    fromLE_toLE h3, fromLE_toLE h4, fromLE_toLE h5, fromLE_toLE h6,
    fromLE_toLE h7, fromLE_toLE h8]

theorem cancel_decode_encode {m : CancelMsg} (h : m.WF) :
    CancelMsg.decode m.encode = m := by
  obtain ⟨h1, h2, h3, h4, h5, h6⟩ := h
  simp only [CancelMsg.encode, CancelMsg.decode, List.append_assoc,
    drop_toLE, take_toLE, take_toLE_exact, fromLE_toLE h1, fromLE_toLE h2,
    fromLE_toLE h3, fromLE_toLE h4, fromLE_toLE h5, fromLE_toLE h6]

theorem executionReport_decode_encode {m : ExecutionReportMsg} (h : m.WF) :
    ExecutionReportMsg.decode m.encode = m := by
  obtain ⟨h1, h2, h3, h4, h5, h6, h7, h8, h9, h10, h11⟩ := h
  simp only [ExecutionReportMsg.encode, ExecutionReportMsg.decode,
    List.append_assoc, drop_toLE, take_toLE, take_toLE_exact,
    fromLE_toLE h1, fromLE_toLE h2, fromLE_toLE h3, fromLE_toLE h4,
    fromLE_toLE h5, fromLE_toLE h6, fromLE_toLE h7, fromLE_toLE h8,
    fromLE_toLE h9, fromLE_toLE h10, fromLE_toLE h11]

theorem login_decode_encode {m : LoginMsg} (h : m.WF) :
    LoginMsg.decode m.encode = m := by
  obtain ⟨h1, h2, h3, hp, hu, hpw⟩ := h
  simp only [LoginMsg.encode, LoginMsg.decode, List.append_assoc,
    drop_toLE, take_toLE, take_toLE_exact, fromLE_toLE h1, fromLE_toLE h2,
    fromLE_toLE h3, take_append_len _ _ _ hp, drop_append_len _ _ _ hp,
    take_append_len _ _ _ hu, drop_append_len _ _ _ hu, take_len_exact hpw]

theorem trade_decode_encode {m : Trade} (h : m.WF) :
    Trade.decode m.encode = m := by
  obtain ⟨h1, h2, h3, h4⟩ := h
  simp only [Trade.encode, Trade.decode, List.append_assoc, drop_toLE,
    take_toLE, take_toLE_exact, fromLE_toLE h1, fromLE_toLE h2,
    fromLE_toLE h3, fromLE_toLE h4]

theorem sessionInfo_decode_encode {m : SessionInfoMsg} (h : m.WF) :
    SessionInfoMsg.decode m.encode = m := by
  obtain ⟨h1, h2, h3⟩ := h
  simp only [SessionInfoMsg.encode, SessionInfoMsg.decode, List.append_assoc,
    drop_toLE, take_toLE, take_toLE_exact, fromLE_toLE h1, fromLE_toLE h2,
    fromLE_toLE h3]

/-- C7: Codec round trip — for every OEP message type (NewOrder, Modify,
Cancel, ExecutionReport, Login, Trade, SessionInfo) and for the 8-byte OEP
header, `decode (encode x) = x` for every well-formed value `x` of that type
(fields within their machine-integer ranges, fixed byte arrays of their
declared lengths). -/
theorem C7_codec_roundtrip :
    (∀ m : OepHeaderMsg, m.WF → OepHeaderMsg.decode m.encode = m) ∧
    (∀ m : NewOrderMsg, m.WF → NewOrderMsg.decode m.encode = m) ∧
    (∀ m : ModifyMsg, m.WF → ModifyMsg.decode m.encode = m) ∧
    (∀ m : CancelMsg, m.WF → CancelMsg.decode m.encode = m) ∧
    (∀ m : ExecutionReportMsg, m.WF → ExecutionReportMsg.decode m.encode = m) ∧
    (∀ m : LoginMsg, m.WF → LoginMsg.decode m.encode = m) ∧
    (∀ m : Trade, m.WF → Trade.decode m.encode = m) ∧
    (∀ m : SessionInfoMsg, m.WF → SessionInfoMsg.decode m.encode = m) :=
  ⟨fun _ h => oepHeader_decode_encode h, fun _ h => newOrder_decode_encode h,
   fun _ h => modify_decode_encode h, fun _ h => cancel_decode_encode h,
   fun _ h => executionReport_decode_encode h, fun _ h => login_decode_encode h,
   fun _ h => trade_decode_encode h, fun _ h => sessionInfo_decode_encode h⟩

/-- Witness for C7 at the concrete values of the repository's own
`test_encode_decode` vectors. -/
theorem C7_codec_roundtrip_witness :
    OepHeaderMsg.decode (OepHeaderMsg.encode ⟨1, 2, 20⟩) = ⟨1, 2, 20⟩ ∧
    NewOrderMsg.decode (NewOrderMsg.encode ⟨66, 1, 2, 100, 1000, 66, 1, 55, 66⟩) =
      ⟨66, 1, 2, 100, 1000, 66, 1, 55, 66⟩ ∧
    ModifyMsg.decode (ModifyMsg.encode ⟨66, 1, 2, 100, 1000, 1, 55, 66⟩) =
      ⟨66, 1, 2, 100, 1000, 1, 55, 66⟩ ∧
    CancelMsg.decode (CancelMsg.encode ⟨66, 1, 2, 1, 55, 66⟩) =
      ⟨66, 1, 2, 1, 55, 66⟩ ∧
    ExecutionReportMsg.decode
      (ExecutionReportMsg.encode ⟨66, 1, 2, 3, 100, 1000, 0, 1, 4, 66, 55⟩) =
      ⟨66, 1, 2, 3, 100, 1000, 0, 1, 4, 66, 55⟩ ∧
    LoginMsg.decode
      (LoginMsg.encode ⟨66, 1, 2, List.replicate 3 0, List.replicate 64 7,
        List.replicate 64 9⟩) =
      ⟨66, 1, 2, List.replicate 3 0, List.replicate 64 7, List.replicate 64 9⟩ ∧
    Trade.decode (Trade.encode ⟨12345, 67890, 100, 50⟩) = ⟨12345, 67890, 100, 50⟩ ∧
    SessionInfoMsg.decode (SessionInfoMsg.encode ⟨66, 1, 2⟩) = ⟨66, 1, 2⟩ :=
  ⟨C7_codec_roundtrip.1 _ (by norm_num [OepHeaderMsg.WF]),
   C7_codec_roundtrip.2.1 _ (by norm_num [NewOrderMsg.WF]),
   C7_codec_roundtrip.2.2.1 _ (by norm_num [ModifyMsg.WF]),
   C7_codec_roundtrip.2.2.2.1 _ (by norm_num [CancelMsg.WF]),
   C7_codec_roundtrip.2.2.2.2.1 _ (by norm_num [ExecutionReportMsg.WF]),
   C7_codec_roundtrip.2.2.2.2.2.1 _ (by norm_num [LoginMsg.WF]),
   C7_codec_roundtrip.2.2.2.2.2.2.1 _ (by norm_num [Trade.WF]),
   C7_codec_roundtrip.2.2.2.2.2.2.2 _ (by norm_num [SessionInfoMsg.WF])⟩

/-! ## Order-id counter semantics (C2, C6) -/

theorem insertIntoRightPosition_orderId (m : Market) (o : Order) :
    (insertIntoRightPosition m o).orderId = m.orderId := by
  cases ho : o.side <;> simp [insertIntoRightPosition, ho]

theorem maintenance_orderId (m : Market) : (maintenance m).orderId = m.orderId := by
  unfold maintenance
  split
  · rfl
  · split <;> rfl

theorem finishAdd_orderId {pubOk : Bool} {m : Market} {o : Order} {ts : List Trade}
    {r : OrderState × Nat} {m2 : Market} {ts2 : List Trade}
    (h : finishAdd pubOk m o ts = .ok (r, m2, ts2)) : m2.orderId = m.orderId := by
  unfold finishAdd at h
  split at h
  · cases h; rfl
  · split at h <;> try (cases h; rfl)
    · split at h <;> (cases h; rfl)
    · split at h
      · cases h; exact insertIntoRightPosition_orderId ..
      · split at h
        · cases h; exact insertIntoRightPosition_orderId ..
        · cases h

/-- C2 (amended): the order-id counter is incremented by exactly one on every
`add_order` call that passes the closed-instrument check — including calls
rejected for zero quantity, zero price or the price bands — but a call on a
Closed instrument returns `(Rejected, 0)` *without* incrementing: in the code
the closed check precedes the increment. -/
theorem C2_order_id_increment {pubOk : Bool} {m : Market} {o : Order}
    {r : OrderState × Nat} {m2 : Market} {ts : List Trade}
    (h : addOrder pubOk m o = .ok (r, m2, ts)) :
    (m.instrument.state ≠ InstrumentState.closed → m2.orderId = m.orderId + 1) ∧
    (m.instrument.state = InstrumentState.closed → m2.orderId = m.orderId) := by
  unfold addOrder at h
  dsimp only at h
  split at h
  · cases h
  · split at h
    · cases h; simp_all
    · split at h
      · cases h; simp_all
      · split at h
        · cases h
        · cases h; simp_all
        · split at h
          · split at h
            · cases h
            · constructor
              · intro _; rw [finishAdd_orderId h]; simp [maintenance_orderId]
              · intro hc; simp_all
          · split at h
            · cases h
            · constructor
              · intro _; rw [finishAdd_orderId h]; simp [maintenance_orderId]
              · intro hc; simp_all

/-- Witness for C2: a rejected add (zero price, Day type) on an open book
still increments the counter — the increment leg of the theorem at a
concrete input. -/
theorem C2_order_id_increment_witness :
    addOrder true (Market.new ⟨500, [], InstrumentType.share, InstrumentState.trading, 10, 30⟩)
        ⟨0, 1000, 500, 0, 100, Side.bid, OrderType.day, 100, 2000⟩ =
      .ok ((OrderState.rejected, 0),
        ⟨⟨500, [], InstrumentType.share, InstrumentState.trading, 10, 30⟩, [], [], 1, 0, 0⟩, []) ∧
    (⟨⟨500, [], InstrumentType.share, InstrumentState.trading, 10, 30⟩, [], [], 1, 0, 0⟩ : Market).orderId =
      (Market.new ⟨500, [], InstrumentType.share, InstrumentState.trading, 10, 30⟩).orderId + 1 := by
  have hrun : addOrder true (Market.new ⟨500, [], InstrumentType.share, InstrumentState.trading, 10, 30⟩)
      ⟨0, 1000, 500, 0, 100, Side.bid, OrderType.day, 100, 2000⟩ =
      .ok ((OrderState.rejected, 0),
        ⟨⟨500, [], InstrumentType.share, InstrumentState.trading, 10, 30⟩, [], [], 1, 0, 0⟩, []) := by
    simp [addOrder, Market.new]
  exact ⟨hrun, (C2_order_id_increment hrun).1 (by simp [Market.new])⟩

/-- Counterexample to C2 as stated: on a Closed instrument `add_order`
returns `(Rejected, 0)` and leaves the counter untouched (here at 0), so the
increment does *not* happen before the closed-instrument check. -/
theorem C2_counterexample :
    addOrder true (Market.new ⟨500, [], InstrumentType.share, InstrumentState.closed, 10, 30⟩)
        ⟨0, 1000, 500, 1000, 100, Side.bid, OrderType.day, 100, 2000⟩ =
      .ok ((OrderState.rejected, 0),
        Market.new ⟨500, [], InstrumentType.share, InstrumentState.closed, 10, 30⟩, []) ∧
    (Market.new ⟨500, [], InstrumentType.share, InstrumentState.closed, 10, 30⟩).orderId = 0 := by
  constructor
  · simp [addOrder, Market.new]
  · rfl

/-- C6 (amended): with bands = 10 and residents (Bid 1000) / (Ask 1001), the
add of (Bid 123, qty 100, Day) is band-rejected — midpoint 1000, lower bound
900, 123 < 900 — and returns the pair `(Rejected, 0)` while the order-id
counter advances to 3. -/
theorem C6_band_reject_amended :
    addOrder true
        ⟨⟨500, [], InstrumentType.share, InstrumentState.trading, 10, 30⟩,
         [⟨1, 1000, 500, 1000, 100, Side.bid, OrderType.day, 100, 2000⟩],
         [⟨2, 1000, 500, 1001, 100, Side.ask, OrderType.day, 100, 2000⟩], 2, 1, 1⟩
        ⟨0, 1000, 500, 123, 100, Side.bid, OrderType.day, 100, 2000⟩ =
      .ok ((OrderState.rejected, 0),
        ⟨⟨500, [], InstrumentType.share, InstrumentState.trading, 10, 30⟩,
         [⟨1, 1000, 500, 1000, 100, Side.bid, OrderType.day, 100, 2000⟩],
         [⟨2, 1000, 500, 1001, 100, Side.ask, OrderType.day, 100, 2000⟩], 3, 1, 1⟩, []) ∧
    (1000 + 1001) / 2 = 1000 ∧ 1000 * (100 - 10) / 100 = 900 ∧ 123 < 900 ∧
    addOrder true (Market.new ⟨500, [], InstrumentType.share, InstrumentState.trading, 10, 30⟩)
        ⟨0, 1000, 500, 1000, 100, Side.bid, OrderType.day, 100, 2000⟩ =
      .ok ((OrderState.inserted, 1),
        ⟨⟨500, [], InstrumentType.share, InstrumentState.trading, 10, 30⟩,
         [⟨1, 1000, 500, 1000, 100, Side.bid, OrderType.day, 100, 2000⟩], [], 1, 1, 0⟩, []) ∧
    addOrder true
        ⟨⟨500, [], InstrumentType.share, InstrumentState.trading, 10, 30⟩,
         [⟨1, 1000, 500, 1000, 100, Side.bid, OrderType.day, 100, 2000⟩], [], 1, 1, 0⟩
        ⟨0, 1000, 500, 1001, 100, Side.ask, OrderType.day, 100, 2000⟩ =
      .ok ((OrderState.inserted, 2),
        ⟨⟨500, [], InstrumentType.share, InstrumentState.trading, 10, 30⟩,
         [⟨1, 1000, 500, 1000, 100, Side.bid, OrderType.day, 100, 2000⟩],
         [⟨2, 1000, 500, 1001, 100, Side.ask, OrderType.day, 100, 2000⟩], 2, 1, 1⟩, []) := by
  refine ⟨?_, by norm_num, by norm_num, by norm_num, ?_, ?_⟩ <;>
    simp [addOrder, matchLoop, bandCheck, maintenance, finishAdd,
      insertIntoRightPosition, Market.new, REARRANGE_THRESHOLD, fitPosition,
      bidComp, askComp]

/-- Counterexample to C6 as stated: the band-rejected add returns
`(Rejected, 0)`, not `(Rejected, 3)` — the exchange id returned with a
rejection is 0 even though the counter stands at 3. -/
theorem C6_counterexample :
    addOrder true
        ⟨⟨500, [], InstrumentType.share, InstrumentState.trading, 10, 30⟩,
         [⟨1, 1000, 500, 1000, 100, Side.bid, OrderType.day, 100, 2000⟩],
         [⟨2, 1000, 500, 1001, 100, Side.ask, OrderType.day, 100, 2000⟩], 2, 1, 1⟩
        ⟨0, 1000, 500, 123, 100, Side.bid, OrderType.day, 100, 2000⟩ =
      .ok ((OrderState.rejected, 0),
        ⟨⟨500, [], InstrumentType.share, InstrumentState.trading, 10, 30⟩,
         [⟨1, 1000, 500, 1000, 100, Side.bid, OrderType.day, 100, 2000⟩],
         [⟨2, 1000, 500, 1001, 100, Side.ask, OrderType.day, 100, 2000⟩], 3, 1, 1⟩, []) ∧
    ((OrderState.rejected, (0 : Nat)) ≠ (OrderState.rejected, 3)) := by
  constructor
  · simp [addOrder, bandCheck]
  · simp

/-! ## Publish-failure semantics (C5) -/

theorem matchLoop_false (comp : Nat → Nat → Bool) (o : Order) (book : List Order) :
    matchLoop false comp o book = matchLoop true comp o book ∨
    matchLoop false comp o book = .panic := by
  cases book with
  | nil => left; rw [matchLoop.eq_def, matchLoop.eq_def]
  | cons top rest =>
    by_cases hg : 0 < o.quantity ∧ (comp o.price top.price || o.orderType == OrderType.market) = true
    · right; rw [matchLoop.eq_def]; simp only [dif_pos hg]; rfl
    · left; rw [matchLoop.eq_def, matchLoop.eq_def]; simp only [dif_neg hg]

theorem finishAdd_false (m : Market) (o : Order) (ts : List Trade) :
    finishAdd false m o ts = finishAdd true m o ts ∨
    finishAdd false m o ts = .panic := by
  by_cases hq : o.quantity = 0
  · left; simp [finishAdd, hq]
  · cases hot : o.orderType <;> cases hl : ts.length <;>
      simp [finishAdd, hq, hot, hl]

theorem addOrder_false (m : Market) (o : Order) :
    addOrder false m o = addOrder true m o ∨ addOrder false m o = .panic := by
  unfold addOrder
  dsimp only
  split
  · left; rfl
  · split
    · left; rfl
    · split
      · left; rfl
      · cases hbc : bandCheck { m with orderId := m.orderId + 1 }
            { o with id := m.orderId + 1 } with
        | panic => left; rfl
        | ok b =>
          cases b
          · cases hs : o.side
            · rcases matchLoop_false bidComp { o with id := m.orderId + 1, side := Side.bid }
                  (maintenance { m with orderId := m.orderId + 1 }).asks with heq | hpanic
              · rw [heq]
                cases hml : matchLoop true bidComp { o with id := m.orderId + 1, side := Side.bid }
                    (maintenance { m with orderId := m.orderId + 1 }).asks with
                | ok r => obtain ⟨o2, bk, ts⟩ := r; exact finishAdd_false ..
                | panic => left; rfl
              · rw [hpanic]; right; rfl
            · rcases matchLoop_false askComp { o with id := m.orderId + 1, side := Side.ask }
                  (maintenance { m with orderId := m.orderId + 1 }).bids with heq | hpanic
              · rw [heq]
                cases hml : matchLoop true askComp { o with id := m.orderId + 1, side := Side.ask }
                    (maintenance { m with orderId := m.orderId + 1 }).bids with
                | ok r => obtain ⟨o2, bk, ts⟩ := r; exact finishAdd_false ..
                | panic => left; rfl
              · rw [hpanic]; right; rfl
          · left; rfl

theorem cancelOrder_false (m : Market) (o : Order) :
    cancelOrder false m o = cancelOrder true m o ∨ cancelOrder false m o = .panic := by
  unfold cancelOrder
  split
  · left; rfl
  · cases hs : o.side <;> dsimp only
    · cases hf : findWithIdx (cancelMatches o) m.bids with
      | some r => obtain ⟨idx, c⟩ := r; right; rfl
      | none => left; rfl
    · cases hf : findWithIdx (cancelMatches o) m.asks with
      | some r => obtain ⟨idx, c⟩ := r; right; rfl
      | none => left; rfl

theorem modifyOrder_false (m : Market) (o : Order) :
    modifyOrder false m o = modifyOrder true m o ∨ modifyOrder false m o = .panic := by
  unfold modifyOrder
  dsimp only
  split
  · left; rfl
  · split
    · left; rfl
    · cases hs : o.side <;> dsimp only
      · cases hf : findWithIdx (modifyMatches o) m.bids with
        | none => left; rfl
        | some r =>
          obtain ⟨idx, resident⟩ := r
          dsimp only
          right
          split <;> rfl
      · cases hf : findWithIdx (modifyMatches o) m.asks with
        | none => left; rfl
        | some r =>
          obtain ⟨idx, resident⟩ := r
          dsimp only
          right
          split <;> rfl

theorem close_false (m : Market) :
    close false m = close true m ∨ close false m = .panic := by
  unfold close
  dsimp only
  cases hb : m.bids ++ m.asks with
  | nil => left; rfl
  | cons x rest => right; rfl

/-- C5 (amended): a failed feed publish is *fatal* to the running operation —
every `send_*` result is unwrapped, so with a failing disseminator each of
`add_order`, `modify_order`, `cancel_order` and `close` either performs no
publish at all (and then returns exactly what it returns with a working
disseminator) or panics. -/
theorem C5_publish_failure_fatal :
    (∀ m o, addOrder false m o = addOrder true m o ∨ addOrder false m o = MRes.panic) ∧
    (∀ m o, modifyOrder false m o = modifyOrder true m o ∨ modifyOrder false m o = MRes.panic) ∧
    (∀ m o, cancelOrder false m o = cancelOrder true m o ∨ cancelOrder false m o = MRes.panic) ∧
    (∀ m, close false m = close true m ∨ close false m = MRes.panic) :=
  ⟨addOrder_false, modifyOrder_false, cancelOrder_false, close_false⟩

/-- Counterexample to C5 as stated: inserting a day order on an open book
publishes a NewOrder event; with the failing disseminator the call panics
instead of completing with the same result — publish failure is not
non-fatal. -/
theorem C5_counterexample :
    addOrder false (Market.new ⟨500, [], InstrumentType.share, InstrumentState.trading, 10, 30⟩)
        ⟨0, 1000, 500, 1000, 100, Side.bid, OrderType.day, 100, 2000⟩ = MRes.panic ∧
    addOrder true (Market.new ⟨500, [], InstrumentType.share, InstrumentState.trading, 10, 30⟩)
        ⟨0, 1000, 500, 1000, 100, Side.bid, OrderType.day, 100, 2000⟩ =
      .ok ((OrderState.inserted, 1),
        ⟨⟨500, [], InstrumentType.share, InstrumentState.trading, 10, 30⟩,
         [⟨1, 1000, 500, 1000, 100, Side.bid, OrderType.day, 100, 2000⟩], [], 1, 1, 0⟩, []) ∧
    (MRes.panic ≠
      (MRes.ok ((OrderState.inserted, 1),
        (⟨⟨500, [], InstrumentType.share, InstrumentState.trading, 10, 30⟩,
         [⟨1, 1000, 500, 1000, 100, Side.bid, OrderType.day, 100, 2000⟩], [], 1, 1, 0⟩ : Market), [])
        : MRes ((OrderState × Nat) × Market × List Trade))) := by
  refine ⟨?_, ?_, by simp⟩ <;>
    simp [addOrder, matchLoop, bandCheck, maintenance, finishAdd,
      insertIntoRightPosition, Market.new, REARRANGE_THRESHOLD, fitPosition]

/-! ## Band-check underflow and panic freedom (C10) -/

theorem matchLoop_true_ne_panic (comp : Nat → Nat → Bool) (o : Order) (book : List Order) :
    matchLoop true comp o book ≠ .panic := by
  induction o, book using matchLoop.induct true comp
  case case1 => simp [matchLoop]
  all_goals (rw [matchLoop.eq_def]; simp_all)
  rename_i o top rest h
  have hneg : ¬(0 < o.quantity ∧ (comp o.price top.price = true ∨ o.orderType = OrderType.market)) := by
    rintro ⟨hq, hc⟩
    obtain ⟨hf, hm⟩ := h hq
    rcases hc with hc | hc
    · simp [hf] at hc
    · exact hm hc
  simp [hneg]

theorem finishAdd_true_ne_panic (m : Market) (o : Order) (ts : List Trade) :
    finishAdd true m o ts ≠ .panic := by
  by_cases hq : o.quantity = 0
  · simp [finishAdd, hq]
  · cases hot : o.orderType <;> cases hl : ts.length <;>
      simp [finishAdd, hq, hot, hl]

theorem bandCheck_ne_panic {m : Market} {o : Order}
    (h : m.instrument.percentageBands ≤ 100)
    (hbp : ∀ x ∈ m.bids, x.price < 2 ^ 56)
    (hap : ∀ x ∈ m.asks, x.price < 2 ^ 56) :
    bandCheck m o ≠ .panic := by
  unfold bandCheck
  rcases hbl : m.bids with _ | ⟨bb, brest⟩
  · simp
  · rcases hal : m.asks with _ | ⟨ba, arest⟩
    · simp
    · have hb1 : bb.price < 2 ^ 56 := hbp bb (by rw [hbl]; simp)
      have ha1 : ba.price < 2 ^ 56 := hap ba (by rw [hal]; simp)
      have hlow : (bb.price + ba.price) / 2 * (100 - m.instrument.percentageBands) < 2 ^ 64 :=
        lt_of_le_of_lt
          (Nat.mul_le_mul (by omega : (bb.price + ba.price) / 2 ≤ 2 ^ 56 - 1)
            (by omega : 100 - m.instrument.percentageBands ≤ 256))
          (by norm_num)
      have hhigh : (bb.price + ba.price) / 2 * (100 + m.instrument.percentageBands) < 2 ^ 64 :=
        lt_of_le_of_lt
          (Nat.mul_le_mul (by omega : (bb.price + ba.price) / 2 ≤ 2 ^ 56 - 1)
            (by omega : 100 + m.instrument.percentageBands ≤ 256))
          (by norm_num)
      dsimp only
      by_cases hmkt : o.orderType ≠ OrderType.market
      · rw [if_pos hmkt, if_neg (by omega : ¬ 2 ^ 64 ≤ bb.price + ba.price)]
        rw [if_neg (by omega : ¬ 100 < m.instrument.percentageBands),
          if_neg (Nat.not_le.mpr hlow)]
        split
        · simp
        · rw [if_neg (Nat.not_le.mpr hhigh)]
          simp
      · rw [if_neg hmkt]
        simp

theorem addOrder_true_bands_le_ne_panic {m : Market} {o : Order}
    (hid : m.instrument.id = o.instrument)
    (hb : m.instrument.percentageBands ≤ 100)
    (hbp : ∀ x ∈ m.bids, x.price < 2 ^ 56)
    (hap : ∀ x ∈ m.asks, x.price < 2 ^ 56) :
    addOrder true m o ≠ MRes.panic := by
  unfold addOrder
  dsimp only
  split
  · simp_all
  · split
    · simp
    · split
      · simp
      · cases hbc : bandCheck { m with orderId := m.orderId + 1 }
            { o with id := m.orderId + 1 } with
        | panic => exact absurd hbc (bandCheck_ne_panic hb hbp hap)
        | ok b =>
          cases b
          · cases hs : o.side
            · cases hml : matchLoop true bidComp { o with id := m.orderId + 1, side := Side.bid }
                  (maintenance { m with orderId := m.orderId + 1 }).asks with
              | ok r => obtain ⟨o2, bk, ts⟩ := r; exact finishAdd_true_ne_panic _ _ _
              | panic => exact absurd hml (matchLoop_true_ne_panic _ _ _)
            · cases hml : matchLoop true askComp { o with id := m.orderId + 1, side := Side.ask }
                  (maintenance { m with orderId := m.orderId + 1 }).bids with
              | ok r => obtain ⟨o2, bk, ts⟩ := r; exact finishAdd_true_ne_panic _ _ _
              | panic => exact absurd hml (matchLoop_true_ne_panic _ _ _)
          · simp

theorem addOrder_bands_gt_panic {pubOk : Bool} {m : Market} {o : Order}
    (hid : m.instrument.id = o.instrument)
    (hst : m.instrument.state ≠ InstrumentState.closed)
    (hq : o.quantity ≠ 0) (hp : o.price ≠ 0)
    (hot : o.orderType ≠ OrderType.market)
    (hbids : m.bids ≠ []) (hasks : m.asks ≠ [])
    (hb : 100 < m.instrument.percentageBands) :
    addOrder pubOk m o = MRes.panic := by
  have hbc : bandCheck { m with orderId := m.orderId + 1 } { o with id := m.orderId + 1 } =
      MRes.panic := by
    unfold bandCheck
    rcases hbl : m.bids with _ | ⟨bb, brest⟩
    · exact absurd hbl hbids
    · rcases hal : m.asks with _ | ⟨ba, arest⟩
      · exact absurd hal hasks
      · dsimp only
        rw [if_pos hot]
        by_cases hov : 2 ^ 64 ≤ bb.price + ba.price
        · rw [if_pos hov]
        · rw [if_neg hov]
          rw [if_pos hb]
  unfold addOrder
  dsimp only
  rw [if_neg (by omega), if_neg hst, if_neg (by simp [hq, hp]), hbc]

/-- C10: the band check computes `100 - percentage_bands` in unsigned
arithmetic with no guard.  Any non-Market order that reaches the band check
(open instrument, non-zero quantity and price, both sides resident) on an
instrument with `percentage_bands > 100` panics under checked semantics
(either at the underflow, or earlier at the `best_bid + best_ask` overflow),
so `add_order` is total only under `percentage_bands ≤ 100`; with a working
disseminator, matching ids and resident prices small enough for the u64
midpoint arithmetic (below `2^56`), `percentage_bands ≤ 100` makes
`add_order` panic-free — but the band check's u64 sum itself panics on
overflow for `2^63`-scale prices even with in-range bands.  Instruments with
`percentage_bands > 100` are constructible: the CP InstrumentUpdate path and
`Instrument::new` store the band byte unchecked (here 150), and only
`set_percentage_bands` asserts the bound. -/
theorem C10_band_underflow :
    (∀ m o, m.instrument.id = o.instrument → m.instrument.percentageBands ≤ 100 →
      (∀ x ∈ m.bids, x.price < 2 ^ 56) → (∀ x ∈ m.asks, x.price < 2 ^ 56) →
      addOrder true m o ≠ MRes.panic) ∧
    (∀ (pubOk : Bool) m o, m.instrument.id = o.instrument →
      m.instrument.state ≠ InstrumentState.closed →
      o.quantity ≠ 0 → o.price ≠ 0 → o.orderType ≠ OrderType.market →
      m.bids ≠ [] → m.asks ≠ [] → 100 < m.instrument.percentageBands →
      addOrder pubOk m o = MRes.panic) ∧
    (bandCheck
        ⟨⟨500, [], InstrumentType.share, InstrumentState.trading, 10, 30⟩,
         [⟨1, 1000, 500, 2 ^ 63, 100, Side.bid, OrderType.day, 100, 2000⟩],
         [⟨2, 1000, 500, 2 ^ 63 + 2, 100, Side.ask, OrderType.day, 100, 2000⟩], 2, 1, 1⟩
        ⟨0, 1000, 500, 950, 100, Side.bid, OrderType.day, 100, 2000⟩ = MRes.panic) ∧
    (processOneDataEntry CPState.new
        [1, 0, 12, 0, 77, 0, 0, 0, 0, 0, 0, 0, 0, 0, 150, 25] =
      CPRes.ok [] 16
        ⟨[⟨77, [], InstrumentType.share, InstrumentState.trading, 150, 25⟩],
         [(77, Market.new ⟨77, [], InstrumentType.share, InstrumentState.trading, 150, 25⟩)],
         ProtocolSide.client⟩) ∧
    (∀ id name itype istate bands variation,
      (Instrument.new id name itype istate bands variation).percentageBands = bands) ∧
    (∀ (i : Instrument) bands, 100 < bands → i.setPercentageBands bands = MRes.panic) := by
  refine ⟨fun m o hid hb hbp hap => addOrder_true_bands_le_ne_panic hid hb hbp hap,
          fun pubOk m o hid hst hq hp hot hbids hasks hb =>
            addOrder_bands_gt_panic hid hst hq hp hot hbids hasks hb,
          by
            norm_num [bandCheck]
            intro hcon
            exact absurd hcon (by decide),
          by decide, fun _ _ _ _ _ _ => rfl,
          fun i bands hb => ?_⟩
  simp [Instrument.setPercentageBands]
  omega

/-- Witness for C10 at concrete inputs: a bands-10 instrument accepts the add
(no panic), a bands-150 instrument with both sides resident panics, and
`set_percentage_bands 150` panics. -/
theorem C10_band_underflow_witness :
    addOrder true (Market.new ⟨500, [], InstrumentType.share, InstrumentState.trading, 10, 30⟩)
        ⟨0, 1000, 500, 1000, 100, Side.bid, OrderType.day, 100, 2000⟩ ≠ MRes.panic ∧
    addOrder true
        ⟨⟨500, [], InstrumentType.share, InstrumentState.trading, 150, 30⟩,
         [⟨1, 1000, 500, 1000, 100, Side.bid, OrderType.day, 100, 2000⟩],
         [⟨2, 1000, 500, 1001, 100, Side.ask, OrderType.day, 100, 2000⟩], 2, 1, 1⟩
        ⟨0, 1000, 500, 950, 100, Side.bid, OrderType.day, 100, 2000⟩ = MRes.panic ∧
    Instrument.setPercentageBands ⟨500, [], InstrumentType.share, InstrumentState.trading, 10, 30⟩ 150 =
      MRes.panic :=
  ⟨C10_band_underflow.1 _ _ (by simp [Market.new]) (by simp [Market.new])
     (by simp [Market.new]) (by simp [Market.new]),
   C10_band_underflow.2.1 true _ _ (by simp) (by simp) (by simp) (by simp) (by simp)
     (by simp) (by simp) (by simp),
   C10_band_underflow.2.2.2.2.2 _ 150 (by omega)⟩

/-! ## Exact-frame decoding and the gateway read loop (C9) -/
theorem oepHeader_encode_length (m : OepHeaderMsg) : m.encode.length = 8 := by
  simp [OepHeaderMsg.encode, toLE_length]

theorem OepHeaderMsg.mkWF {v code size : Nat} (h1 : v < 256 ^ 2) (h2 : code < 256 ^ 2)
    (h3 : size < 256 ^ 4) : (⟨v, code, size⟩ : OepHeaderMsg).WF := ⟨h1, h2, h3⟩

theorem newOrder_encode_length (m : NewOrderMsg) : m.encode.length = NEWORDER_SIZE := by
  simp [NewOrderMsg.encode, toLE_length, NEWORDER_SIZE]

theorem modify_encode_length (m : ModifyMsg) : m.encode.length = MODIFY_SIZE := by
  simp [ModifyMsg.encode, toLE_length, MODIFY_SIZE]

theorem cancel_encode_length (m : CancelMsg) : m.encode.length = CANCEL_SIZE := by
  simp [CancelMsg.encode, toLE_length, CANCEL_SIZE]

theorem executionReport_encode_length (m : ExecutionReportMsg) :
    m.encode.length = EXECUTIONREPORT_SIZE := by
  simp [ExecutionReportMsg.encode, toLE_length, EXECUTIONREPORT_SIZE]

theorem login_encode_length {m : LoginMsg} (h : m.WF) : m.encode.length = LOGIN_SIZE := by
  obtain ⟨-, -, -, hp, hu, hpw⟩ := h
  simp [LoginMsg.encode, toLE_length, LOGIN_SIZE, hp, hu, hpw]

/-- The payload size of each decodable OEP message (the `*_SIZE` constant the
`try_into` conversion in `oep_decode` demands). -/
def OepMsg.size : OepMsg → Nat
  | .login _ => LOGIN_SIZE
  | .newOrder _ => NEWORDER_SIZE
  | .modify _ => MODIFY_SIZE
  | .cancel _ => CANCEL_SIZE
  | .executionReport _ => EXECUTIONREPORT_SIZE

/-- The header `msg_type` code of each decodable OEP message
(`OepHeader::message_type` numbering). -/
def OepMsg.typeCode : OepMsg → Nat
  | .newOrder _ => 0
  | .modify _ => 1
  | .cancel _ => 2
  | .executionReport _ => 3
  | .login _ => 4

/-- The encoded payload of an OEP message. -/
def OepMsg.payload : OepMsg → List Nat
  | .login m => m.encode
  | .newOrder m => m.encode
  | .modify m => m.encode
  | .cancel m => m.encode
  | .executionReport m => m.encode

/-- Well-formedness of the wrapped message. -/
def OepMsg.WFm : OepMsg → Prop
  | .login m => m.WF
  | .newOrder m => m.WF
  | .modify m => m.WF
  | .cancel m => m.WF
  | .executionReport m => m.WF

theorem OepMsg.payload_length {msg : OepMsg} (h : msg.WFm) :
    msg.payload.length = msg.size := by
  cases msg with
  | login m => exact login_encode_length h
  | newOrder m => exact newOrder_encode_length m
  | modify m => exact modify_encode_length m
  | cancel m => exact cancel_encode_length m
  | executionReport m => exact executionReport_encode_length m

theorem oepDecode_exact {v : Nat} {msg : OepMsg} (hv : v < 256 ^ 2) (hw : msg.WFm) :
    oepDecode (OepHeaderMsg.encode ⟨v, msg.typeCode, msg.size⟩ ++ msg.payload) =
      Except.ok msg := by
  cases msg with
  | login m =>
    simp only [oepDecode, OEP_HEADER_SIZE, OepMsg.typeCode, OepMsg.size, OepMsg.payload]
    rw [take_append_len _ _ _ (oepHeader_encode_length _),
      drop_append_len _ _ _ (oepHeader_encode_length _),
      oepHeader_decode_encode (OepHeaderMsg.mkWF hv (by decide) (by decide))]
    simp [List.length_append, oepHeader_encode_length, login_encode_length hw,
      OepHeaderMsg.messageType, LOGIN_SIZE, login_decode_encode hw]
  | newOrder m =>
    simp only [oepDecode, OEP_HEADER_SIZE, OepMsg.typeCode, OepMsg.size, OepMsg.payload]
    rw [take_append_len _ _ _ (oepHeader_encode_length _),
      drop_append_len _ _ _ (oepHeader_encode_length _),
      oepHeader_decode_encode (OepHeaderMsg.mkWF hv (by decide) (by decide))]
    simp [List.length_append, oepHeader_encode_length, newOrder_encode_length,
      OepHeaderMsg.messageType, NEWORDER_SIZE, newOrder_decode_encode hw]
  | modify m =>
    simp only [oepDecode, OEP_HEADER_SIZE, OepMsg.typeCode, OepMsg.size, OepMsg.payload]
    rw [take_append_len _ _ _ (oepHeader_encode_length _),
      drop_append_len _ _ _ (oepHeader_encode_length _),
      oepHeader_decode_encode (OepHeaderMsg.mkWF hv (by decide) (by decide))]
    simp [List.length_append, oepHeader_encode_length, modify_encode_length,
      OepHeaderMsg.messageType, MODIFY_SIZE, modify_decode_encode hw]
  | cancel m =>
    simp only [oepDecode, OEP_HEADER_SIZE, OepMsg.typeCode, OepMsg.size, OepMsg.payload]
    rw [take_append_len _ _ _ (oepHeader_encode_length _),
      drop_append_len _ _ _ (oepHeader_encode_length _),
      oepHeader_decode_encode (OepHeaderMsg.mkWF hv (by decide) (by decide))]
    simp [List.length_append, oepHeader_encode_length, cancel_encode_length,
      OepHeaderMsg.messageType, CANCEL_SIZE, cancel_decode_encode hw]
  | executionReport m =>
    simp only [oepDecode, OEP_HEADER_SIZE, OepMsg.typeCode, OepMsg.size, OepMsg.payload]
    rw [take_append_len _ _ _ (oepHeader_encode_length _),
      drop_append_len _ _ _ (oepHeader_encode_length _),
      oepHeader_decode_encode (OepHeaderMsg.mkWF hv (by decide) (by decide))]
    simp [List.length_append, oepHeader_encode_length, executionReport_encode_length,
      OepHeaderMsg.messageType, EXECUTIONREPORT_SIZE, executionReport_decode_encode hw]

theorem oepDecode_suffix {v : Nat} {msg : OepMsg} {s : List Nat}
    (hv : v < 256 ^ 2) (hw : msg.WFm) (hs : s ≠ []) :
    oepDecode ((OepHeaderMsg.encode ⟨v, msg.typeCode, msg.size⟩ ++ msg.payload) ++ s) =
      Except.error OepError.invalidData := by
  have hslen : s.length ≠ 0 := fun hc => hs (List.length_eq_zero.mp hc)
  rw [List.append_assoc]
  cases msg with
  | login m =>
    simp only [oepDecode, OEP_HEADER_SIZE, OepMsg.typeCode, OepMsg.size, OepMsg.payload]
    rw [take_append_len _ _ _ (oepHeader_encode_length _),
      drop_append_len _ _ _ (oepHeader_encode_length _),
      oepHeader_decode_encode (OepHeaderMsg.mkWF hv (by decide) (by decide))]
    simp [List.length_append, oepHeader_encode_length, login_encode_length hw,
      OepHeaderMsg.messageType, LOGIN_SIZE]
    rw [if_neg (by omega), if_neg hs]
  | newOrder m =>
    simp only [oepDecode, OEP_HEADER_SIZE, OepMsg.typeCode, OepMsg.size, OepMsg.payload]
    rw [take_append_len _ _ _ (oepHeader_encode_length _),
      drop_append_len _ _ _ (oepHeader_encode_length _),
      oepHeader_decode_encode (OepHeaderMsg.mkWF hv (by decide) (by decide))]
    simp [List.length_append, oepHeader_encode_length, newOrder_encode_length,
      OepHeaderMsg.messageType, NEWORDER_SIZE]
    rw [if_neg (by omega), if_neg hs]
  | modify m =>
    simp only [oepDecode, OEP_HEADER_SIZE, OepMsg.typeCode, OepMsg.size, OepMsg.payload]
    rw [take_append_len _ _ _ (oepHeader_encode_length _),
      drop_append_len _ _ _ (oepHeader_encode_length _),
      oepHeader_decode_encode (OepHeaderMsg.mkWF hv (by decide) (by decide))]
    simp [List.length_append, oepHeader_encode_length, modify_encode_length,
      OepHeaderMsg.messageType, MODIFY_SIZE]
    rw [if_neg (by omega), if_neg hs]
  | cancel m =>
    simp only [oepDecode, OEP_HEADER_SIZE, OepMsg.typeCode, OepMsg.size, OepMsg.payload]
    rw [take_append_len _ _ _ (oepHeader_encode_length _),
      drop_append_len _ _ _ (oepHeader_encode_length _),
      oepHeader_decode_encode (OepHeaderMsg.mkWF hv (by decide) (by decide))]
    simp [List.length_append, oepHeader_encode_length, cancel_encode_length,
      OepHeaderMsg.messageType, CANCEL_SIZE]
    rw [if_neg (by omega), if_neg hs]
  | executionReport m =>
    simp only [oepDecode, OEP_HEADER_SIZE, OepMsg.typeCode, OepMsg.size, OepMsg.payload]
    rw [take_append_len _ _ _ (oepHeader_encode_length _),
      drop_append_len _ _ _ (oepHeader_encode_length _),
      oepHeader_decode_encode (OepHeaderMsg.mkWF hv (by decide) (by decide))]
    simp [List.length_append, oepHeader_encode_length, executionReport_encode_length,
      OepHeaderMsg.messageType, EXECUTIONREPORT_SIZE]
    rw [if_neg (by omega), if_neg hs]


/-- C9: `oep_decode` succeeds only on exact frames.  For every well-formed
framed message `B = header ++ payload` of a decodable type, `oep_decode B`
returns `Ok`; appending any non-empty suffix (in particular a second
complete frame) makes the payload `try_into` fail with `InvalidData`, which
is not the retryable `UnexpectedEof`, and the gateway read loop closes the
client session on it. -/
theorem C9_exact_frames :
    ∀ (v : Nat) (msg : OepMsg), v < 256 ^ 2 → msg.WFm →
      oepDecode (OepHeaderMsg.encode ⟨v, msg.typeCode, msg.size⟩ ++ msg.payload) = Except.ok msg ∧
      (∀ s : List Nat, s ≠ [] →
        oepDecode ((OepHeaderMsg.encode ⟨v, msg.typeCode, msg.size⟩ ++ msg.payload) ++ s) =
          Except.error OepError.invalidData ∧
        OepError.invalidData ≠ OepError.unexpectedEof ∧
        ∀ r : Nat, gatewayReadReaction
          (oepDecode ((OepHeaderMsg.encode ⟨v, msg.typeCode, msg.size⟩ ++ msg.payload) ++ s)) r =
          GatewayAction.closeSession) ∧
      (∀ (v2 : Nat) (msg2 : OepMsg), v2 < 256 ^ 2 → msg2.WFm →
        oepDecode ((OepHeaderMsg.encode ⟨v, msg.typeCode, msg.size⟩ ++ msg.payload) ++
          (OepHeaderMsg.encode ⟨v2, msg2.typeCode, msg2.size⟩ ++ msg2.payload)) =
          Except.error OepError.invalidData) := by
  intro v msg hv hw
  refine ⟨oepDecode_exact hv hw,
    fun s hs => ⟨oepDecode_suffix hv hw hs, by simp, fun r => ?_⟩,
    fun v2 msg2 hv2 hw2 => ?_⟩
  · rw [oepDecode_suffix hv hw hs]; rfl
  · apply oepDecode_suffix hv hw
    intro hc
    have hlen := congrArg List.length hc
    simp [List.length_append, oepHeader_encode_length] at hlen

/-- Witness for C9: a concrete Cancel frame decodes, and the same frame with
one extra byte is an `InvalidData` error. -/
theorem C9_exact_frames_witness :
    oepDecode (OepHeaderMsg.encode ⟨1, 2, CANCEL_SIZE⟩ ++ CancelMsg.encode ⟨66, 1, 2, 1, 55, 66⟩) =
      Except.ok (OepMsg.cancel ⟨66, 1, 2, 1, 55, 66⟩) ∧
    oepDecode ((OepHeaderMsg.encode ⟨1, 2, CANCEL_SIZE⟩ ++ CancelMsg.encode ⟨66, 1, 2, 1, 55, 66⟩) ++ [0]) =
      Except.error OepError.invalidData := by
  have h := C9_exact_frames 1 (OepMsg.cancel ⟨66, 1, 2, 1, 55, 66⟩) (by norm_num) (by norm_num [OepMsg.WFm, CancelMsg.WF])
  exact ⟨h.1, (h.2.1 [0] (by simp)).1⟩

/-! ## Matching-engine dispatcher mapping (C4) -/
theorem sessionInfo_encode_length (m : SessionInfoMsg) :
    m.encode.length = SESSIONINFO_SIZE := by
  simp [SessionInfoMsg.encode, toLE_length, SESSIONINFO_SIZE]

theorem decodeMessage_killSession (p1 p2 p3 : Nat) {si : SessionInfoMsg} (hw : si.WF) :
    decodeMessage (6 :: p1 :: p2 :: p3 :: si.encode) = .ok (.killSession si) 0 := by
  have hlen := sessionInfo_encode_length si
  simp [decodeMessage, msgTypeFromU16, ME_HEADER_SIZE, SESSIONINFO_SIZE, hlen,
    sessionInfo_decode_encode hw]

theorem processMessage_killSession {m : Market} {si : SessionInfoMsg}
    {reports : List ExecutionReportMsg} {m2 : Market}
    (h : processMessage true m (.killSession si) = .ok (reports, m2)) :
    ∃ v, cancelAllOrdersForSession true m si.participant si.gatewayId si.sessionId =
        .ok (v, m2) ∧
      reports.length = v.length ∧
      ∀ r ∈ reports, r.state = OrderState.cancelled.intoU8 := by
  unfold processMessage at h
  dsimp only at h
  cases hca : cancelAllOrdersForSession true m si.participant si.gatewayId si.sessionId with
  | panic => rw [hca] at h; cases h
  | ok r =>
    obtain ⟨v, m1⟩ := r
    rw [hca] at h
    cases h
    refine ⟨v, rfl, by simp, ?_⟩
    intro r hr
    simp only [List.mem_map] at hr
    obtain ⟨i, -, rfl⟩ := hr
    rfl


theorem decodeMessage_newOrder (p1 p2 p3 : Nat) {nm : NewOrderMsg} (hw : nm.WF) :
    decodeMessage (0 :: p1 :: p2 :: p3 :: nm.encode) = .ok (.newOrder nm) nm.bookId := by
  have hlen := newOrder_encode_length nm
  simp [decodeMessage, msgTypeFromU16, ME_HEADER_SIZE, NEWORDER_SIZE, hlen,
    newOrder_decode_encode hw]

theorem decodeMessage_modify (p1 p2 p3 : Nat) {mm : ModifyMsg} (hw : mm.WF) :
    decodeMessage (1 :: p1 :: p2 :: p3 :: mm.encode) = .ok (.modify mm) mm.bookId := by
  have hlen := modify_encode_length mm
  simp [decodeMessage, msgTypeFromU16, ME_HEADER_SIZE, MODIFY_SIZE, hlen,
    modify_decode_encode hw]

theorem decodeMessage_cancel (p1 p2 p3 : Nat) {cm : CancelMsg} (hw : cm.WF) :
    decodeMessage (2 :: p1 :: p2 :: p3 :: cm.encode) = .ok (.cancel cm) cm.bookId := by
  have hlen := cancel_encode_length cm
  simp [decodeMessage, msgTypeFromU16, ME_HEADER_SIZE, CANCEL_SIZE, hlen,
    cancel_decode_encode hw]

/-- C4 (amended): the matching-engine dispatcher feeds the first byte of the
4-byte local header through `From<u16> for MsgType`, giving the mapping
{0 = NewOrder, 1 = Modify, 2 = Cancel, 6 = SessionNotification}; a first byte
of 3 maps to `ExecutionReport`, which `decode_message` rejects with an error.
A well-formed datagram whose first byte is 6 and whose payload is a
`SessionInfo` decodes to a `KillSession` wrapper, and `process_message` on a
`KillSession` emits exactly one ExecutionReport with state Cancelled per
order reported cancelled by `cancel_all_orders_for_session`. -/
theorem C4_dispatcher_mapping :
    (∀ (p1 p2 p3 : Nat) (nm : NewOrderMsg), nm.WF →
      decodeMessage (0 :: p1 :: p2 :: p3 :: nm.encode) = .ok (.newOrder nm) nm.bookId) ∧
    (∀ (p1 p2 p3 : Nat) (mm : ModifyMsg), mm.WF →
      decodeMessage (1 :: p1 :: p2 :: p3 :: mm.encode) = .ok (.modify mm) mm.bookId) ∧
    (∀ (p1 p2 p3 : Nat) (cm : CancelMsg), cm.WF →
      decodeMessage (2 :: p1 :: p2 :: p3 :: cm.encode) = .ok (.cancel cm) cm.bookId) ∧
    (∀ (p1 p2 p3 : Nat) (si : SessionInfoMsg), si.WF →
      decodeMessage (6 :: p1 :: p2 :: p3 :: si.encode) = .ok (.killSession si) 0) ∧
    (∀ (p1 p2 p3 : Nat) (payload : List Nat),
      decodeMessage (3 :: p1 :: p2 :: p3 :: payload) = MEDecode.err) ∧
    (∀ (m : Market) (si : SessionInfoMsg) (reports : List ExecutionReportMsg) (m2 : Market),
      processMessage true m (.killSession si) = .ok (reports, m2) →
      ∃ v, cancelAllOrdersForSession true m si.participant si.gatewayId si.sessionId =
          .ok (v, m2) ∧
        reports.length = v.length ∧
        ∀ r ∈ reports, r.state = OrderState.cancelled.intoU8) :=
  ⟨fun p1 p2 p3 _ hw => decodeMessage_newOrder p1 p2 p3 hw,
   fun p1 p2 p3 _ hw => decodeMessage_modify p1 p2 p3 hw,
   fun p1 p2 p3 _ hw => decodeMessage_cancel p1 p2 p3 hw,
   fun p1 p2 p3 _ hw => decodeMessage_killSession p1 p2 p3 hw,
   fun p1 p2 p3 payload => by simp [decodeMessage, msgTypeFromU16],
   fun _ _ _ _ h => processMessage_killSession h⟩

/-- Counterexample to C4 as stated: a well-formed datagram whose first byte
is 3 and whose payload is a `SessionInfo` is rejected by `decode_message`
(first byte 3 means ExecutionReport in the `From<u16>` mapping), not decoded
to a KillSession wrapper. -/
theorem C4_counterexample :
    decodeMessage ([3, 0, 0, 0] ++ SessionInfoMsg.encode ⟨66, 1, 2⟩) = MEDecode.err ∧
    MEDecode.err ≠ MEDecode.ok (.killSession ⟨66, 1, 2⟩) 0 := by
  constructor
  · simp [decodeMessage, msgTypeFromU16]
  · simp

/-- Witness for C4 at concrete inputs: byte 6 with a concrete SessionInfo
decodes to KillSession, and a one-order market produces exactly one
Cancelled execution report for that session. -/
theorem C4_dispatcher_mapping_witness :
    decodeMessage (6 :: 0 :: 0 :: 0 :: SessionInfoMsg.encode ⟨1000, 2000, 100⟩) =
      .ok (.killSession ⟨1000, 2000, 100⟩) 0 ∧
    (∃ v, cancelAllOrdersForSession true
        ⟨⟨500, [], InstrumentType.share, InstrumentState.trading, 10, 30⟩,
         [⟨1, 1000, 500, 1000, 100, Side.bid, OrderType.day, 100, 2000⟩], [], 1, 1, 0⟩
        (1000 : Nat) (100 : Nat) (2000 : Nat) =
        .ok (v, ⟨⟨500, [], InstrumentType.share, InstrumentState.trading, 10, 30⟩,
          [], [], 1, 3, 0⟩) ∧
      ([(⟨1000, 1, 1, 500, 0, 0, 0, 0, 2, 2000, 100⟩ : ExecutionReportMsg)]).length = v.length ∧
      ∀ r ∈ [(⟨1000, 1, 1, 500, 0, 0, 0, 0, 2, 2000, 100⟩ : ExecutionReportMsg)],
        r.state = OrderState.cancelled.intoU8) := by
  constructor
  · exact C4_dispatcher_mapping.2.2.2.1 0 0 0 ⟨1000, 2000, 100⟩ (by norm_num [SessionInfoMsg.WF])
  · exact C4_dispatcher_mapping.2.2.2.2.2
      ⟨⟨500, [], InstrumentType.share, InstrumentState.trading, 10, 30⟩,
       [⟨1, 1000, 500, 1000, 100, Side.bid, OrderType.day, 100, 2000⟩], [], 1, 1, 0⟩
      ⟨1000, 2000, 100⟩ _ _ (by decide)

end Exchange
namespace Exchange

/-- A well-formed CP data entry, used to describe buffers made of whole
entries (claim C8).  The byte image below follows the entry layout
`{type:u16 le, len:u16 le, payload:[len]}` of the Clear protocol. -/
inductive CPEntry where
  | heartbeat
  | update (id ty ist bands variation : Nat) (name : List Nat)
  | request (id : Nat)
  | allRequest
deriving DecidableEq, Repr

/-- The byte image of an entry. -/
def CPEntry.encodeE : CPEntry → List Nat
  | .heartbeat => [0, 0, 0, 0]
  | .update id ty ist bands variation name =>
      [1, 0] ++ toLE 2 (12 + name.length) ++ toLE 8 id ++
      [ty, ist, bands, variation] ++ name
  | .request id => [2, 0, 8, 0] ++ toLE 8 id
  | .allRequest => [3, 0, 0, 0]

/-- The number of bytes `process_one_data_entry` consumes for a whole entry —
exactly the entry's byte length. -/
def CPEntry.entrySize : CPEntry → Nat
  | .heartbeat => 4
  | .update _ _ _ _ _ name => 16 + name.length
  | .request _ => 12
  | .allRequest => 4

/-- Well-formedness: fields in byte range, declared length fits `u16`,
ASCII name. -/
def CPEntry.WFe : CPEntry → Prop
  | .heartbeat => True
  | .update id ty ist bands variation name =>
      id < 256 ^ 8 ∧ ty < 256 ∧ ist < 256 ∧ bands < 256 ∧ variation < 256 ∧
      name.length ≤ 65523 ∧ ∀ b ∈ name, b < 128
  | .request id => id < 256 ^ 8
  | .allRequest => True

theorem CPEntry.encodeE_length (e : CPEntry) : e.encodeE.length = e.entrySize := by
  cases e <;> simp [CPEntry.encodeE, CPEntry.entrySize, toLE_length] <;> omega

theorem CPEntry.entrySize_pos (e : CPEntry) : 4 ≤ e.entrySize := by
  cases e <;> simp [CPEntry.entrySize] <;> omega

theorem exists_ok_of_if {c : Prop} [Decidable c] {resp : List Nat} {k : Nat}
    {s1 s2 : CPState} :
    ∃ r st, (if c then CPRes.ok resp k s1 else CPRes.ok resp k s2) = CPRes.ok r k st := by
  split
  · exact ⟨resp, s1, rfl⟩
  · exact ⟨resp, s2, rfl⟩

theorem processOneDataEntry_exact (st : CPState) (e : CPEntry) (he : e.WFe)
    (rest : List Nat) :
    ∃ resp st2, processOneDataEntry st (e.encodeE ++ rest) =
      .ok resp e.entrySize st2 := by
  cases e with
  | heartbeat =>
    refine ⟨[], st, ?_⟩
    simp [CPEntry.encodeE, CPEntry.entrySize, processOneDataEntry]
  | allRequest =>
    refine ⟨(st.instruments.map prepareInstrumentUpdateResponse).flatten, st, ?_⟩
    simp [CPEntry.encodeE, CPEntry.entrySize, processOneDataEntry]
  | request id =>
    simp only [CPEntry.encodeE, CPEntry.entrySize, List.cons_append, List.nil_append,
      processOneDataEntry]
    have hlen : (2 :: 0 :: 8 :: 0 :: (toLE 8 id ++ rest)).length = 12 + rest.length := by
      simp [toLE_length]; omega
    cases hf : st.instruments.find? (fun x => x.id == fromLE ((toLE 8 id ++ rest).take 8)) with
    | some i =>
      refine ⟨prepareInstrumentUpdateResponse i, st, ?_⟩
      simp [hlen, hf]
    | none =>
      refine ⟨[], st, ?_⟩
      simp [hlen, hf]
  | update id ty ist bands variation name =>
    obtain ⟨hid, hty, hst, hbands, hvar, hnlen, hname⟩ := he
    simp only [CPEntry.encodeE, CPEntry.entrySize, List.cons_append, List.nil_append,
      List.append_assoc, toLE]
    unfold processOneDataEntry
    dsimp only
    have harith : (12 + name.length) % 256 + 256 * ((12 + name.length) / 256 % 256) =
        12 + name.length := by omega
    simp only [harith, List.length_cons, List.length_append]
    rw [if_neg (by omega), if_neg (by omega), if_neg (by omega)]
    have hsz : 4 + (12 + name.length) = 16 + name.length := by omega
    cases hside : st.protocolSide
    · rw [if_neg (by rintro (hc | hc) <;> omega), hsz]
      exact exists_ok_of_if
    · rw [hsz]
      exact ⟨[], st, rfl⟩

end Exchange
namespace Exchange

/-- A byte tail that starts a data entry but does not contain all of it:
either fewer than 4 header bytes, or fewer than `4 + len` bytes. -/
def truncatedEntry (tail : List Nat) : Prop :=
  tail ≠ [] ∧
  ∀ t0 t1 l0 l1 r, tail = t0 :: t1 :: l0 :: l1 :: r →
    tail.length < (l0 + 256 * l1) + 4

theorem processOneDataEntry_truncated (st : CPState) (tail : List Nat)
    (h4 : 4 ≤ tail.length) (htr : truncatedEntry tail) :
    processOneDataEntry st tail = .ok [] 0 st := by
  rcases tail with _ | ⟨t0, _ | ⟨t1, _ | ⟨l0, _ | ⟨l1, r⟩⟩⟩⟩ <;> simp at h4 <;> try omega
  have hlt := htr.2 t0 t1 l0 l1 r rfl
  unfold processOneDataEntry
  dsimp only
  rw [if_pos hlt]

/-- Total byte size of a list of whole entries. -/
def cpTotalSize (l : List CPEntry) : Nat := (l.map CPEntry.entrySize).sum

theorem cpLoop_whole_entries (entries : List CPEntry) :
    ∀ (st : CPState) (buffer : List Nat) (processed cnt : Nat) (resp tail : List Nat),
    (∀ e ∈ entries, e.WFe) →
    buffer.drop processed = (entries.map CPEntry.encodeE).flatten ++ tail →
    entries.length ≤ cnt →
    (tail.length < 4 ∨ truncatedEntry tail) →
    ∃ resp2 st2, cpLoop st buffer processed cnt resp =
      .ok (resp ++ resp2) (processed + cpTotalSize entries) st2 := by
  induction entries with
  | nil =>
    intro st buffer processed cnt resp tail hw hdrop hcnt htail
    have hlen : buffer.length - processed = tail.length := by
      have h := congrArg List.length hdrop
      simpa using h
    rw [cpLoop.eq_def]
    rcases htail with h4 | htr
    · rw [dif_neg (by omega)]
      exact ⟨[], st, by simp [cpTotalSize]⟩
    · by_cases hc : 4 ≤ buffer.length - processed ∧ 0 < cnt
      · rw [dif_pos hc]
        have hdt : buffer.drop processed = tail := by simpa using hdrop
        rw [hdt, processOneDataEntry_truncated st tail (by omega) htr]
        simp [cpTotalSize]
      · rw [dif_neg hc]
        exact ⟨[], st, by simp [cpTotalSize]⟩
  | cons e restE ih =>
    intro st buffer processed cnt resp tail hw hdrop hcnt htail
    have hwe : e.WFe := hw e (by simp)
    have hdrop2 : buffer.drop processed =
        e.encodeE ++ ((restE.map CPEntry.encodeE).flatten ++ tail) := by
      simpa [List.append_assoc] using hdrop
    obtain ⟨resp1, st2, hone⟩ := processOneDataEntry_exact st e hwe
      ((restE.map CPEntry.encodeE).flatten ++ tail)
    have hblen : 4 ≤ buffer.length - processed := by
      have h := congrArg List.length hdrop2
      simp [CPEntry.encodeE_length] at h
      have := CPEntry.entrySize_pos e
      omega
    have hcnt0 : 0 < cnt := by
      simp at hcnt
      omega
    rw [cpLoop.eq_def, dif_pos ⟨hblen, hcnt0⟩, hdrop2, hone]
    dsimp only
    rw [if_neg (by have := CPEntry.entrySize_pos e; omega)]
    have hdrop3 : buffer.drop (processed + e.entrySize) =
        (restE.map CPEntry.encodeE).flatten ++ tail := by
      rw [← List.drop_drop, hdrop2,
        drop_append_len _ _ _ (CPEntry.encodeE_length e)]
    obtain ⟨resp2, st3, hrec⟩ := ih st2 buffer (processed + e.entrySize) (cnt - 1)
      (resp ++ resp1) tail (fun x hx => hw x (by simp [hx])) hdrop3
      (by simp at hcnt ⊢; omega) htail
    refine ⟨resp1 ++ resp2, st3, ?_⟩
    rw [hrec]
    simp [cpTotalSize, List.append_assoc]
    omega

end Exchange
namespace Exchange

theorem cpTotalSize_flatten (entries : List CPEntry) :
    ((entries.map CPEntry.encodeE).flatten).length = cpTotalSize entries := by
  induction entries with
  | nil => simp [cpTotalSize]
  | cons e t ih => simp only [List.map_cons, List.flatten_cons, List.length_append,
      cpTotalSize, List.map, List.sum_cons, CPEntry.encodeE_length] at ih ⊢; omega

/-- **C8** — `ClearProtocol::process` never consumes a partial entry: on a buffer
made of a valid technical header (`'C' 'P'` version 1, entry count byte), a run
of whole well-formed entries and a truncated final entry, the bytes-consumed
count returned covers exactly the 4 header bytes plus the whole entries, leaving
exactly the truncated entry's bytes unconsumed; and the processing loop stops as
soon as an entry reports 0 bytes consumed. -/
theorem C8_partial_entries :
    (∀ (st : CPState) (entries : List CPEntry) (cnt : Nat) (tail : List Nat),
      (∀ e ∈ entries, e.WFe) →
      entries.length ≤ cnt →
      (tail.length < 4 ∨ truncatedEntry tail) →
      8 ≤ ([67, 80, 1, cnt] ++ (entries.map CPEntry.encodeE).flatten ++ tail).length →
      ∃ resp st2,
        cpProcess st ([67, 80, 1, cnt] ++ (entries.map CPEntry.encodeE).flatten ++ tail) =
          CPRes.ok resp (4 + cpTotalSize entries) st2 ∧
        ([67, 80, 1, cnt] ++ (entries.map CPEntry.encodeE).flatten ++ tail).length -
          (4 + cpTotalSize entries) = tail.length) ∧
    (∀ (st st1 : CPState) (buffer resp oneResp : List Nat) (processed cnt : Nat),
      processOneDataEntry st (buffer.drop processed) = CPRes.ok oneResp 0 st1 →
      cpLoop st buffer processed cnt resp = CPRes.ok resp processed st1 ∨
      cpLoop st buffer processed cnt resp = CPRes.ok resp processed st) := by
  constructor
  · intro st entries cnt tail hw hcnt htail h8
    have hdrop : ([67, 80, 1, cnt] ++ (entries.map CPEntry.encodeE).flatten ++ tail).drop 4 =
        (entries.map CPEntry.encodeE).flatten ++ tail := by
      simp
    obtain ⟨resp2, st2, hloop⟩ := cpLoop_whole_entries entries st
      ([67, 80, 1, cnt] ++ (entries.map CPEntry.encodeE).flatten ++ tail) 4 cnt [] tail
      hw hdrop hcnt htail
    refine ⟨resp2, st2, ?_, ?_⟩
    · unfold cpProcess
      rw [if_neg (by omega)]
      have h0 : ([67, 80, 1, cnt] ++ (entries.map CPEntry.encodeE).flatten ++ tail).getD 0 0
          = 67 := by simp
      have h1 : ([67, 80, 1, cnt] ++ (entries.map CPEntry.encodeE).flatten ++ tail).getD 1 0
          = 80 := by simp
      have h2 : ([67, 80, 1, cnt] ++ (entries.map CPEntry.encodeE).flatten ++ tail).getD 2 0
          = 1 := by simp
      have h3 : ([67, 80, 1, cnt] ++ (entries.map CPEntry.encodeE).flatten ++ tail).getD 3 0
          = cnt := by simp
      rw [h0, h1, h2, h3]
      rw [if_neg (by simp), if_neg (by simp [CLEAR_PROTOCOL_VERSION])]
      simpa using hloop
    · rw [List.length_append, List.length_append, cpTotalSize_flatten]
      simp only [List.length_cons, List.length_nil]
      omega
  · intro st st1 buffer resp oneResp processed cnt h
    rw [cpLoop.eq_def]
    by_cases hg : 4 ≤ buffer.length - processed ∧ 0 < cnt
    · rw [dif_pos hg, h]
      left
      rfl
    · rw [dif_neg hg]
      right
      rfl

end Exchange
namespace Exchange

theorem C8_partial_entries_witness :
    ∃ resp st2,
      cpProcess CPState.new
        ([67, 80, 1, 2] ++
          (([CPEntry.update 5 0 2 20 25 []]).map CPEntry.encodeE).flatten ++
          [1, 0, 12, 0, 9, 9]) =
        CPRes.ok resp (4 + cpTotalSize [CPEntry.update 5 0 2 20 25 []]) st2 ∧
      ([67, 80, 1, 2] ++
        (([CPEntry.update 5 0 2 20 25 []]).map CPEntry.encodeE).flatten ++
        [1, 0, 12, 0, 9, 9]).length - (4 + cpTotalSize [CPEntry.update 5 0 2 20 25 []]) =
        ([1, 0, 12, 0, 9, 9] : List Nat).length :=
  C8_partial_entries.1 CPState.new [CPEntry.update 5 0 2 20 25 []] 2 [1, 0, 12, 0, 9, 9]
    (by
      intro e he
      simp only [List.mem_singleton] at he
      subst he
      norm_num [CPEntry.WFe])
    (by decide)
    (Or.inr ⟨by decide, by
      intro t0 t1 l0 l1 r h
      have h2 := congrArg (fun l => List.getD l 2 0) h
      have h3 := congrArg (fun l => List.getD l 3 0) h
      simp at h2 h3
      simp only [List.length_cons, List.length_nil]
      omega⟩)
    (by decide)

end Exchange
namespace Exchange

/-! ## Book invariant (C1) -/

/-- Resting bids are kept sorted by price, best (highest) first. -/
def sortedBids (l : List Order) : Prop :=
  List.Pairwise (fun x y => y.price ≤ x.price) l

/-- Resting asks are kept sorted by price, best (lowest) first. -/
def sortedAsks (l : List Order) : Prop :=
  List.Pairwise (fun x y => x.price ≤ y.price) l

/-- The no-crossed-book property: every resident bid is priced strictly below
every resident ask. -/
def noCross (bids asks : List Order) : Prop :=
  ∀ b ∈ bids, ∀ a ∈ asks, b.price < a.price

/-- The full book invariant maintained by the `Market` mutators. -/
def BookInv (m : Market) : Prop :=
  sortedBids m.bids ∧ sortedAsks m.asks ∧ noCross m.bids m.asks

theorem sortedBids_of_sublist {l2 l : List Order}
    (h : List.Sublist (l2.map Order.price) (l.map Order.price))
    (hs : sortedBids l) : sortedBids l2 := by
  have h2 : (l.map Order.price).Pairwise (fun a b => b ≤ a) :=
    List.pairwise_map.mpr hs
  exact List.pairwise_map.mp (List.Pairwise.sublist h h2)

theorem sortedAsks_of_sublist {l2 l : List Order}
    (h : List.Sublist (l2.map Order.price) (l.map Order.price))
    (hs : sortedAsks l) : sortedAsks l2 := by
  have h2 : (l.map Order.price).Pairwise (fun a b => a ≤ b) :=
    List.pairwise_map.mpr hs
  exact List.pairwise_map.mp (List.Pairwise.sublist h h2)

theorem mem_price_of_sublist {l2 l : List Order} {a : Order}
    (h : List.Sublist (l2.map Order.price) (l.map Order.price)) (ha : a ∈ l2) :
    ∃ x ∈ l, x.price = a.price := by
  have h1 : a.price ∈ l2.map Order.price := List.mem_map_of_mem _ ha
  have h2 : a.price ∈ l.map Order.price := h.subset h1
  obtain ⟨x, hx, he⟩ := List.mem_map.mp h2
  exact ⟨x, hx, he⟩

theorem noCross_of_sublists {bids2 bids asks2 asks : List Order}
    (hb : List.Sublist (bids2.map Order.price) (bids.map Order.price))
    (ha : List.Sublist (asks2.map Order.price) (asks.map Order.price))
    (h : noCross bids asks) : noCross bids2 asks2 := by
  intro b hbm a ham
  obtain ⟨b1, hb1, hbe⟩ := mem_price_of_sublist hb hbm
  obtain ⟨a1, ha1, hae⟩ := mem_price_of_sublist ha ham
  rw [← hbe, ← hae]
  exact h b1 hb1 a1 ha1

theorem fitPosition_le_length (comp : Nat → Nat → Bool) (p : Nat) :
    ∀ l : List Order, fitPosition comp p l ≤ l.length
  | [] => by simp [fitPosition]
  | x :: r => by
    simp only [fitPosition, List.length_cons]
    split
    · omega
    · have := fitPosition_le_length comp p r
      omega

theorem fitPosition_cons_pos {comp : Nat → Nat → Bool} {p : Nat} {b : Order}
    {rest : List Order} (h : comp b.price p = true) :
    fitPosition comp p (b :: rest) = 0 := by
  simp [fitPosition, h]

theorem fitPosition_cons_neg {comp : Nat → Nat → Bool} {p : Nat} {b : Order}
    {rest : List Order} (h : comp b.price p = false) :
    fitPosition comp p (b :: rest) = fitPosition comp p rest + 1 := by
  simp [fitPosition, h]

theorem insertFit_mem {comp : Nat → Nat → Bool} {p : Nat} {o : Order}
    {l : List Order} {x : Order}
    (hx : x ∈ l.insertIdx (fitPosition comp p l) o) : x = o ∨ x ∈ l :=
  (List.mem_insertIdx (fitPosition_le_length comp p l)).mp hx

theorem insertFit_sortedBids (o : Order) :
    ∀ l : List Order, sortedBids l →
      sortedBids (l.insertIdx (fitPosition (fun bp op => bp < op) o.price l) o)
  | [], _ => by simp [fitPosition, sortedBids]
  | b :: rest, hs => by
    by_cases hc : b.price < o.price
    · rw [fitPosition_cons_pos (by simpa using hc), List.insertIdx_zero]
      refine List.Pairwise.cons ?_ hs
      intro x hx
      rcases List.mem_cons.mp hx with rfl | hx
      · omega
      · have := (List.pairwise_cons.mp hs).1 x hx
        omega
    · rw [fitPosition_cons_neg (by simpa using hc), List.insertIdx_succ_cons]
      obtain ⟨hb, htail⟩ := List.pairwise_cons.mp hs
      refine List.Pairwise.cons ?_ (insertFit_sortedBids o rest htail)
      intro x hx
      rcases insertFit_mem hx with rfl | hx
      · omega
      · exact hb x hx

theorem insertFit_sortedAsks (o : Order) :
    ∀ l : List Order, sortedAsks l →
      sortedAsks (l.insertIdx (fitPosition (fun bp op => op < bp) o.price l) o)
  | [], _ => by simp [fitPosition, sortedAsks]
  | b :: rest, hs => by
    by_cases hc : o.price < b.price
    · rw [fitPosition_cons_pos (by simpa using hc), List.insertIdx_zero]
      refine List.Pairwise.cons ?_ hs
      intro x hx
      rcases List.mem_cons.mp hx with rfl | hx
      · omega
      · have := (List.pairwise_cons.mp hs).1 x hx
        omega
    · rw [fitPosition_cons_neg (by simpa using hc), List.insertIdx_succ_cons]
      obtain ⟨hb, htail⟩ := List.pairwise_cons.mp hs
      refine List.Pairwise.cons ?_ (insertFit_sortedAsks o rest htail)
      intro x hx
      rcases insertFit_mem hx with rfl | hx
      · omega
      · exact hb x hx

end Exchange
namespace Exchange

theorem matchLoop_shape {pubOk : Bool} (comp : Nat → Nat → Bool) (o : Order)
    (book : List Order) :
    ∀ {o2 : Order} {book2 : List Order} {ts : List Trade},
      matchLoop pubOk comp o book = .ok (o2, book2, ts) →
      o2.price = o.price ∧ o2.orderType = o.orderType ∧ o2.side = o.side ∧
      List.Sublist (book2.map Order.price) (book.map Order.price) ∧
      (book2 = [] ∨ ∃ t2 r2, book2 = t2 :: r2 ∧
        (o2.quantity = 0 ∨
          (comp o2.price t2.price || o2.orderType == OrderType.market) = false)) := by
  induction o, book using matchLoop.induct pubOk comp
  case case1 =>
    intro o2 book2 ts h
    rw [matchLoop.eq_def] at h
    simp only [MRes.ok.injEq, Prod.mk.injEq] at h
    obtain ⟨ho, hb, ht⟩ := h
    subst ho
    subst hb
    exact ⟨rfl, rfl, rfl, by simp, Or.inl rfl⟩
  case case2 =>
    rename_i o top rest hg vol o1 p htt hp o3 book3 ts3 x ih
    intro o2 book2 ts h
    obtain ⟨hprice, htype, hside, hsub, hexit⟩ := ih x
    rw [matchLoop.eq_def] at h
    dsimp only at h
    rw [dif_pos hg] at h
    rw [if_pos htt] at h
    rw [dif_pos hp, x] at h
    dsimp only at h
    simp only [MRes.ok.injEq, Prod.mk.injEq] at h
    obtain ⟨ho, hb, ht⟩ := h
    subst ho
    subst hb
    exact ⟨hprice, htype, hside, hsub, hexit⟩
  case case3 =>
    rename_i o top rest hg vol o1 p htt hp x ih
    intro o2 book2 ts h
    subst htt
    exact absurd x (matchLoop_true_ne_panic comp o1 (p :: rest))
  case case4 =>
    rename_i o top rest hg vol o1 p htt hp o3 book3 ts3 x ih
    intro o2 book2 ts h
    obtain ⟨hprice, htype, hside, hsub, hexit⟩ := ih x
    rw [matchLoop.eq_def] at h
    dsimp only at h
    rw [dif_pos hg] at h
    rw [if_pos htt] at h
    rw [dif_neg hp, x] at h
    dsimp only at h
    simp only [MRes.ok.injEq, Prod.mk.injEq] at h
    obtain ⟨ho, hb, ht⟩ := h
    subst ho
    subst hb
    exact ⟨hprice, htype, hside, List.Sublist.trans hsub (List.sublist_cons_self _ _), hexit⟩
  case case5 =>
    rename_i o top rest hg vol o1 p htt hp x ih
    intro o2 book2 ts h
    subst htt
    exact absurd x (matchLoop_true_ne_panic comp o1 rest)
  case case6 =>
    rename_i o top rest hg htt
    intro o2 book2 ts h
    rw [matchLoop.eq_def] at h
    dsimp only at h
    rw [dif_pos hg, if_neg htt] at h
    cases h
  case case7 =>
    rename_i o top rest hg
    intro o2 book2 ts h
    rw [matchLoop.eq_def] at h
    dsimp only at h
    rw [dif_neg hg] at h
    simp only [MRes.ok.injEq, Prod.mk.injEq] at h
    obtain ⟨ho, hb, ht⟩ := h
    subst ho
    subst hb
    refine ⟨rfl, rfl, rfl, List.Sublist.refl _, Or.inr ⟨top, rest, rfl, ?_⟩⟩
    rcases Nat.eq_zero_or_pos o.quantity with hq | hq
    · exact Or.inl hq
    · right
      cases hb2 : (comp o.price top.price || o.orderType == OrderType.market)
      · rfl
      · exact absurd ⟨hq, hb2⟩ hg

end Exchange
namespace Exchange

theorem maintenance_bids (m : Market) : (maintenance m).bids = m.bids := by
  unfold maintenance
  split
  · rfl
  · split <;> rfl

theorem maintenance_asks (m : Market) : (maintenance m).asks = m.asks := by
  unfold maintenance
  split
  · rfl
  · split <;> rfl

theorem insertIntoRightPosition_inv {m : Market} {o : Order} (hinv : BookInv m)
    (hbid : o.side = Side.bid → ∀ a ∈ m.asks, o.price < a.price)
    (hask : o.side = Side.ask → ∀ b ∈ m.bids, b.price < o.price) :
    BookInv (insertIntoRightPosition m o) := by
  unfold insertIntoRightPosition
  cases hs : o.side
  case bid =>
    dsimp only
    refine ⟨insertFit_sortedBids o m.bids hinv.1, hinv.2.1, ?_⟩
    intro b hb a ha
    rcases insertFit_mem hb with rfl | hb
    · exact hbid hs a ha
    · exact hinv.2.2 b hb a ha
  case ask =>
    dsimp only
    refine ⟨hinv.1, insertFit_sortedAsks o m.asks hinv.2.1, ?_⟩
    intro b hb a ha
    rcases insertFit_mem ha with rfl | ha
    · exact hask hs b hb
    · exact hinv.2.2 b hb a ha

theorem finishAdd_insert_branch {pubOk : Bool} {m : Market} {o : Order}
    {ts : List Trade} {r : OrderState × Nat} {m2 : Market} {ts2 : List Trade}
    (h : (if 0 < ts.length then
            MRes.ok ((OrderState.partiallyTraded, o.id), insertIntoRightPosition m o, ts)
          else if pubOk then
            MRes.ok ((OrderState.inserted, o.id), insertIntoRightPosition m o, ts)
          else MRes.panic) = MRes.ok (r, m2, ts2)) :
    m2 = insertIntoRightPosition m o := by
  split at h
  · simp only [MRes.ok.injEq, Prod.mk.injEq] at h
    exact h.2.1.symm
  · split at h
    · simp only [MRes.ok.injEq, Prod.mk.injEq] at h
      exact h.2.1.symm
    · cases h

theorem finishAdd_inv {pubOk : Bool} {m : Market} {o : Order} {ts : List Trade}
    {r : OrderState × Nat} {m2 : Market} {ts2 : List Trade}
    (h : finishAdd pubOk m o ts = .ok (r, m2, ts2)) (hinv : BookInv m)
    (hok : 0 < o.quantity → o.orderType ≠ OrderType.fillAndKill →
      o.orderType ≠ OrderType.fillOrKill → o.orderType ≠ OrderType.market →
      (o.side = Side.bid → ∀ a ∈ m.asks, o.price < a.price) ∧
      (o.side = Side.ask → ∀ b ∈ m.bids, b.price < o.price)) :
    BookInv m2 := by
  unfold finishAdd at h
  by_cases hq : o.quantity = 0
  · rw [if_pos hq] at h
    simp only [MRes.ok.injEq, Prod.mk.injEq] at h
    exact h.2.1 ▸ hinv
  · rw [if_neg hq] at h
    cases hot : o.orderType <;> rw [hot] at h <;> dsimp only at h
    all_goals first
      | (simp only [MRes.ok.injEq, Prod.mk.injEq] at h
         exact h.2.1 ▸ hinv)
      | (cases hl : ts.length <;> rw [hl] at h <;> dsimp only at h <;>
           simp only [MRes.ok.injEq, Prod.mk.injEq] at h <;> exact h.2.1 ▸ hinv)
      | (have hm2 := finishAdd_insert_branch h
         subst hm2
         exact insertIntoRightPosition_inv hinv
           (fun hs => (hok (Nat.pos_of_ne_zero hq) (by simp [hot]) (by simp [hot])
             (by simp [hot])).1 hs)
           (fun hs => (hok (Nat.pos_of_ne_zero hq) (by simp [hot]) (by simp [hot])
             (by simp [hot])).2 hs))

end Exchange
namespace Exchange

theorem addOrder_inv {pubOk : Bool} {m : Market} {o : Order} {r : OrderState × Nat}
    {m2 : Market} {ts : List Trade}
    (h : addOrder pubOk m o = .ok (r, m2, ts)) (hinv : BookInv m) : BookInv m2 := by
  unfold addOrder at h
  dsimp only at h
  split at h
  · cases h
  · split at h
    · simp only [MRes.ok.injEq, Prod.mk.injEq] at h
      exact h.2.1 ▸ hinv
    · split at h
      · simp only [MRes.ok.injEq, Prod.mk.injEq] at h
        exact h.2.1 ▸ hinv
      · cases hbc : bandCheck { m with orderId := m.orderId + 1 }
            { o with id := m.orderId + 1 } with
        | panic => rw [hbc] at h; cases h
        | ok b =>
          rw [hbc] at h
          cases b
          · dsimp only at h
            cases hside : o.side
            · rw [hside] at h
              dsimp only at h
              cases hml : matchLoop pubOk bidComp { o with id := m.orderId + 1, side := Side.bid }
                  (maintenance { m with orderId := m.orderId + 1 }).asks with
              | panic => rw [hml] at h; cases h
              | ok res =>
                obtain ⟨o2, asks2, ts2⟩ := res
                rw [hml] at h
                dsimp only at h
                obtain ⟨hprice, htype, hsido, hsub, hexit⟩ := matchLoop_shape bidComp _ _ hml
                rw [maintenance_asks] at hsub
                have hsa2 : sortedAsks asks2 := sortedAsks_of_sublist hsub hinv.2.1
                refine finishAdd_inv h ⟨?_, ?_, ?_⟩ ?_
                · dsimp only
                  rw [maintenance_bids]
                  exact hinv.1
                · exact hsa2
                · dsimp only
                  rw [maintenance_bids]
                  exact noCross_of_sublists (List.Sublist.refl _) hsub hinv.2.2
                · intro hq2 hfak hfok hmkt
                  constructor
                  · intro _ a ha2
                    dsimp only at ha2
                    rcases hexit with rfl | ⟨t2, r2, rfl, hcond⟩
                    · cases ha2
                    · rcases hcond with hq0 | hcf
                      · omega
                      · have hcf1 : bidComp o2.price t2.price = false :=
                          (Bool.or_eq_false_iff.mp hcf).1
                        have hlt : ¬ t2.price ≤ o2.price := by
                          simpa [bidComp] using hcf1
                        rcases List.mem_cons.mp ha2 with rfl | ha2
                        · omega
                        · have := (List.pairwise_cons.mp hsa2).1 a ha2
                          omega
                  · intro hcon
                    rw [hsido] at hcon
                    cases hcon
            · rw [hside] at h
              dsimp only at h
              cases hml : matchLoop pubOk askComp { o with id := m.orderId + 1, side := Side.ask }
                  (maintenance { m with orderId := m.orderId + 1 }).bids with
              | panic => rw [hml] at h; cases h
              | ok res =>
                obtain ⟨o2, bids2, ts2⟩ := res
                rw [hml] at h
                dsimp only at h
                obtain ⟨hprice, htype, hsido, hsub, hexit⟩ := matchLoop_shape askComp _ _ hml
                rw [maintenance_bids] at hsub
                have hsb2 : sortedBids bids2 := sortedBids_of_sublist hsub hinv.1
                refine finishAdd_inv h ⟨?_, ?_, ?_⟩ ?_
                · exact hsb2
                · dsimp only
                  rw [maintenance_asks]
                  exact hinv.2.1
                · dsimp only
                  rw [maintenance_asks]
                  exact noCross_of_sublists hsub (List.Sublist.refl _) hinv.2.2
                · intro hq2 hfak hfok hmkt
                  constructor
                  · intro hcon
                    rw [hsido] at hcon
                    cases hcon
                  · intro _ b hb2
                    dsimp only at hb2
                    rcases hexit with rfl | ⟨t2, r2, rfl, hcond⟩
                    · cases hb2
                    · rcases hcond with hq0 | hcf
                      · omega
                      · have hcf1 : askComp o2.price t2.price = false :=
                          (Bool.or_eq_false_iff.mp hcf).1
                        have hlt : ¬ o2.price ≤ t2.price := by
                          simpa [askComp] using hcf1
                        rcases List.mem_cons.mp hb2 with rfl | hb2
                        · omega
                        · have := (List.pairwise_cons.mp hsb2).1 b hb2
                          omega
          · simp only [MRes.ok.injEq, Prod.mk.injEq] at h
            exact h.2.1 ▸ hinv

end Exchange
namespace Exchange

theorem findWithIdx_set_same_price {p : Order → Bool} {q : Nat} :
    ∀ {l : List Order} {idx : Nat} {x : Order},
      findWithIdx p l = some (idx, x) →
      (l.set idx { x with quantity := q }).map Order.price = l.map Order.price
  | [], idx, x => by simp [findWithIdx]
  | y :: rest, idx, x => by
    intro h
    unfold findWithIdx at h
    split at h
    · simp only [Option.some.injEq, Prod.mk.injEq] at h
      obtain ⟨h1, h2⟩ := h
      subst h1
      subst h2
      simp [List.set]
    · cases hr : findWithIdx p rest with
      | none => rw [hr] at h; cases h
      | some pr =>
        obtain ⟨i, z⟩ := pr
        rw [hr] at h
        simp at h
        obtain ⟨h1, h2⟩ := h
        subst h1
        subst h2
        simp only [List.set_cons_succ, List.map_cons, List.cons.injEq, true_and]
        exact findWithIdx_set_same_price hr

theorem eraseIdx_inv_bids {m : Market} (hinv : BookInv m) (idx : Nat)
    {bids2 : List Order} (hb : bids2 = m.bids.eraseIdx idx) :
    sortedBids bids2 ∧ noCross bids2 m.asks := by
  subst hb
  have hsub : List.Sublist ((m.bids.eraseIdx idx).map Order.price)
      (m.bids.map Order.price) := List.Sublist.map _ (List.eraseIdx_sublist _ _)
  exact ⟨sortedBids_of_sublist hsub hinv.1,
    noCross_of_sublists hsub (List.Sublist.refl _) hinv.2.2⟩

theorem eraseIdx_inv_asks {m : Market} (hinv : BookInv m) (idx : Nat)
    {asks2 : List Order} (ha : asks2 = m.asks.eraseIdx idx) :
    sortedAsks asks2 ∧ noCross m.bids asks2 := by
  subst ha
  have hsub : List.Sublist ((m.asks.eraseIdx idx).map Order.price)
      (m.asks.map Order.price) := List.Sublist.map _ (List.eraseIdx_sublist _ _)
  exact ⟨sortedAsks_of_sublist hsub hinv.2.1,
    noCross_of_sublists (List.Sublist.refl _) hsub hinv.2.2⟩

theorem cancelOrder_inv {pubOk : Bool} {m : Market} {o : Order}
    {r : OrderState} {m2 : Market}
    (h : cancelOrder pubOk m o = .ok (r, m2)) (hinv : BookInv m) : BookInv m2 := by
  unfold cancelOrder at h
  split at h
  · cases h
  · cases hside : o.side <;> rw [hside] at h <;> dsimp only at h
    · split at h
      · split at h
        · simp only [MRes.ok.injEq, Prod.mk.injEq] at h
          refine h.2 ▸ ⟨?_, ?_, ?_⟩
          · exact (eraseIdx_inv_bids hinv _ rfl).1
          · exact hinv.2.1
          · exact (eraseIdx_inv_bids hinv _ rfl).2
        · cases h
      · simp only [MRes.ok.injEq, Prod.mk.injEq] at h
        exact h.2 ▸ hinv
    · split at h
      · split at h
        · simp only [MRes.ok.injEq, Prod.mk.injEq] at h
          refine h.2 ▸ ⟨?_, ?_, ?_⟩
          · exact hinv.1
          · exact (eraseIdx_inv_asks hinv _ rfl).1
          · exact (eraseIdx_inv_asks hinv _ rfl).2
        · cases h
      · simp only [MRes.ok.injEq, Prod.mk.injEq] at h
        exact h.2 ▸ hinv

theorem modifyOrder_inv {pubOk : Bool} {m : Market} {o : Order}
    {r : OrderState × Nat} {m2 : Market} {ts : List Trade}
    (h : modifyOrder pubOk m o = .ok (r, m2, ts)) (hinv : BookInv m) : BookInv m2 := by
  unfold modifyOrder at h
  split at h
  · cases h
  · split at h
    · simp only [MRes.ok.injEq, Prod.mk.injEq] at h
      exact h.2.1 ▸ hinv
    · dsimp only at h
      cases hside : o.side <;> rw [hside] at h <;> dsimp only at h
      · split at h
        · simp only [MRes.ok.injEq, Prod.mk.injEq] at h
          exact h.2.1 ▸ hinv
        · rename_i idx resident hfind
          split at h
          · split at h
            · simp only [MRes.ok.injEq, Prod.mk.injEq] at h
              have hpe := findWithIdx_set_same_price (q := o.quantity) hfind
              refine h.2.1 ▸ ⟨?_, hinv.2.1, ?_⟩
              · exact sortedBids_of_sublist (by rw [hpe]) hinv.1
              · exact noCross_of_sublists (by rw [hpe]) (List.Sublist.refl _) hinv.2.2
            · cases h
          · split at h
            · refine addOrder_inv h ⟨?_, hinv.2.1, ?_⟩
              · exact (eraseIdx_inv_bids hinv idx rfl).1
              · exact (eraseIdx_inv_bids hinv idx rfl).2
            · cases h
      · split at h
        · simp only [MRes.ok.injEq, Prod.mk.injEq] at h
          exact h.2.1 ▸ hinv
        · rename_i idx resident hfind
          split at h
          · split at h
            · simp only [MRes.ok.injEq, Prod.mk.injEq] at h
              have hpe := findWithIdx_set_same_price (q := o.quantity) hfind
              refine h.2.1 ▸ ⟨hinv.1, ?_, ?_⟩
              · exact sortedAsks_of_sublist (by rw [hpe]) hinv.2.1
              · exact noCross_of_sublists (List.Sublist.refl _) (by rw [hpe]) hinv.2.2
            · cases h
          · split at h
            · refine addOrder_inv h ⟨hinv.1, ?_, ?_⟩
              · exact (eraseIdx_inv_asks hinv idx rfl).1
              · exact (eraseIdx_inv_asks hinv idx rfl).2
            · cases h

theorem applyOp_inv {pubOk : Bool} {m : Market} {op : MarketOp} {m2 : Market}
    (h : applyOp pubOk m op = .ok m2) (hinv : BookInv m) : BookInv m2 := by
  cases op with
  | add o =>
    unfold applyOp at h
    dsimp only at h
    cases ha : addOrder pubOk m o with
    | panic => rw [ha] at h; cases h
    | ok res =>
      obtain ⟨r1, mm, ts⟩ := res
      rw [ha] at h
      dsimp only at h
      simp only [MRes.ok.injEq] at h
      subst h
      exact addOrder_inv ha hinv
  | modify o =>
    unfold applyOp at h
    dsimp only at h
    cases ha : modifyOrder pubOk m o with
    | panic => rw [ha] at h; cases h
    | ok res =>
      obtain ⟨r1, mm, ts⟩ := res
      rw [ha] at h
      dsimp only at h
      simp only [MRes.ok.injEq] at h
      subst h
      exact modifyOrder_inv ha hinv
  | cancel o =>
    unfold applyOp at h
    dsimp only at h
    cases ha : cancelOrder pubOk m o with
    | panic => rw [ha] at h; cases h
    | ok res =>
      obtain ⟨r1, mm⟩ := res
      rw [ha] at h
      dsimp only at h
      simp only [MRes.ok.injEq] at h
      subst h
      exact cancelOrder_inv ha hinv

end Exchange
namespace Exchange

theorem runOps_inv {pubOk : Bool} :
    ∀ (ops : List MarketOp) (m m2 : Market),
      runOps pubOk m ops = .ok m2 → BookInv m → BookInv m2
  | [], m, m2 => by
    intro h hinv
    unfold runOps at h
    simp only [MRes.ok.injEq] at h
    exact h ▸ hinv
  | op :: rest, m, m2 => by
    intro h hinv
    unfold runOps at h
    cases ha : applyOp pubOk m op with
    | panic => rw [ha] at h; cases h
    | ok m1 =>
      rw [ha] at h
      dsimp only at h
      exact runOps_inv rest m1 m2 h (applyOp_inv ha hinv)

/-- **C1** — no crossed book: a `Market` starts with empty queues, and every
`add_order`, `modify_order` and `cancel_order` call preserves the book
invariant (price-sorted queues, every resident bid strictly below every
resident ask); hence after any sequence of these calls, whenever both queues
are non-empty, the maximum resident bid price is strictly below the minimum
resident ask price. -/
theorem C1_no_crossed_book {pubOk : Bool} {i : Instrument} {ops : List MarketOp}
    {m2 : Market} (h : runOps pubOk (Market.new i) ops = .ok m2) :
    ∀ b ∈ m2.bids, ∀ a ∈ m2.asks, b.price < a.price := by
  have h0 : BookInv (Market.new i) := by
    refine ⟨List.Pairwise.nil, List.Pairwise.nil, ?_⟩
    intro b hb
    cases hb
  exact (runOps_inv ops (Market.new i) m2 h h0).2.2

theorem C1_no_crossed_book_witness :
    (⟨2, 8, 500, 990, 60, Side.bid, OrderType.day, 1, 2⟩ : Order).price <
      (⟨1, 7, 500, 1000, 50, Side.ask, OrderType.day, 1, 2⟩ : Order).price :=
  @C1_no_crossed_book true
    ⟨500, [], InstrumentType.share, InstrumentState.trading, 10, 30⟩
    [MarketOp.add ⟨0, 7, 500, 1000, 50, Side.ask, OrderType.day, 1, 2⟩,
     MarketOp.add ⟨0, 8, 500, 990, 60, Side.bid, OrderType.day, 1, 2⟩]
    ⟨⟨500, [], InstrumentType.share, InstrumentState.trading, 10, 30⟩,
     [⟨2, 8, 500, 990, 60, Side.bid, OrderType.day, 1, 2⟩],
     [⟨1, 7, 500, 1000, 50, Side.ask, OrderType.day, 1, 2⟩],
     2, 1, 1⟩
    (by simp [runOps, applyOp, addOrder, matchLoop, bandCheck, maintenance, finishAdd,
      insertIntoRightPosition, fitPosition, Market.new, REARRANGE_THRESHOLD,
      bidComp, askComp])
    ⟨2, 8, 500, 990, 60, Side.bid, OrderType.day, 1, 2⟩ (by simp)
    ⟨1, 7, 500, 1000, 50, Side.ask, OrderType.day, 1, 2⟩ (by simp)

end Exchange
namespace Exchange

/-! ## Trade properties (C3) -/

/-- The matchable depth on the opposite side at crossing prices: total resident
quantity of the maximal prefix of the queue whose entries the aggressor's
(fixed) price crosses. -/
def matchableDepth (comp : Nat → Nat → Bool) (o : Order) : List Order → Nat
  | [] => 0
  | x :: rest =>
      if (comp o.price x.price || o.orderType == OrderType.market) = true then
        x.quantity + matchableDepth comp o rest
      else 0

theorem matchableDepth_congr {comp : Nat → Nat → Bool} {o o2 : Order}
    (hp : o2.price = o.price) (ht : o2.orderType = o.orderType) :
    ∀ l : List Order, matchableDepth comp o2 l = matchableDepth comp o l
  | [] => by simp [matchableDepth]
  | x :: rest => by
    simp only [matchableDepth, hp, ht, matchableDepth_congr hp ht rest]

/-- The greedy per-trade quantity law of the match loop: each emitted trade
takes `min(resting-top quantity, remaining aggressor quantity)` from the
front of the opposite queue, the remaining aggressor quantity shrinking by
each fill. -/
def greedySplit (q : Nat) : List Trade → List Order → Prop
  | [], _ => True
  | t :: ts, top :: book =>
      t.quantity = min top.quantity q ∧ greedySplit (q - t.quantity) ts book
  | _ :: _, [] => False

theorem finishAdd_trades {pubOk : Bool} {m : Market} {o : Order} {ts : List Trade}
    {r : OrderState × Nat} {m2 : Market} {ts2 : List Trade}
    (h : finishAdd pubOk m o ts = .ok (r, m2, ts2)) : ts2 = ts := by
  unfold finishAdd at h
  split at h
  · simp only [MRes.ok.injEq, Prod.mk.injEq] at h
    exact h.2.2.symm
  · split at h
    · simp only [MRes.ok.injEq, Prod.mk.injEq] at h
      exact h.2.2.symm
    · simp only [MRes.ok.injEq, Prod.mk.injEq] at h
      exact h.2.2.symm
    · split at h <;> simp only [MRes.ok.injEq, Prod.mk.injEq] at h <;> exact h.2.2.symm
    · split at h
      · simp only [MRes.ok.injEq, Prod.mk.injEq] at h
        exact h.2.2.symm
      · split at h
        · simp only [MRes.ok.injEq, Prod.mk.injEq] at h
          exact h.2.2.symm
        · cases h

end Exchange
namespace Exchange

theorem matchLoop_trades {pubOk : Bool} (comp : Nat → Nat → Bool) (o : Order)
    (book : List Order) :
    ∀ {o2 : Order} {book2 : List Order} {ts : List Trade},
      matchLoop pubOk comp o book = .ok (o2, book2, ts) →
      (∀ x ∈ book, 0 < x.quantity) → (∀ x ∈ book, x.id ≠ o.id) →
      (∀ t ∈ ts, 0 < t.quantity ∧ t.bidOrderId ≠ t.askOrderId) ∧
      ts.map Trade.price = (book.take ts.length).map Order.price ∧
      (ts.map Trade.quantity).sum = min o.quantity (matchableDepth comp o book) ∧
      greedySplit o.quantity ts book := by
  induction o, book using matchLoop.induct pubOk comp
  case case1 =>
    intro o2 book2 ts h hq hid
    rw [matchLoop.eq_def] at h
    simp only [MRes.ok.injEq, Prod.mk.injEq] at h
    obtain ⟨-, -, ht⟩ := h
    subst ht
    simp [matchableDepth, greedySplit]
  case case2 =>
    rename_i o top rest hg vol o1 p htt hp o3 book3 ts3 x ih
    intro o2 book2 ts h hq hid
    have hqtop : 0 < top.quantity := hq top (by simp)
    have hvol : vol = o.quantity := by
      simp only [vol, p] at hp ⊢
      omega
    have hvle : vol ≤ top.quantity := by
      simp only [vol]
      omega
    obtain ⟨iha, ihb, ihc, ihd⟩ := ih x
      (by
        intro y hy
        rcases List.mem_cons.mp hy with rfl | hy
        · exact hp
        · exact hq y (by simp [hy]))
      (by
        intro y hy
        rcases List.mem_cons.mp hy with rfl | hy
        · exact hid top (by simp)
        · exact hid y (by simp [hy]))
    have hq1 : o1.quantity = 0 := by
      simp only [o1]
      omega
    have hsum0 : (ts3.map Trade.quantity).sum = 0 := by
      rw [ihc, hq1]
      simp
    have hts3 : ts3 = [] := by
      cases hts : ts3 with
      | nil => rfl
      | cons t0 tr =>
        have h0 := (iha t0 (by simp [hts])).1
        rw [hts] at hsum0
        simp only [List.map_cons, List.sum_cons] at hsum0
        omega
    subst hts3
    rw [matchLoop.eq_def] at h
    dsimp only at h
    rw [dif_pos hg, if_pos htt, dif_pos hp, x] at h
    dsimp only at h
    simp only [MRes.ok.injEq, Prod.mk.injEq] at h
    obtain ⟨ho, hb, ht⟩ := h
    subst ho
    subst hb
    subst ht
    refine ⟨?_, ?_, ?_, ?_⟩
    · intro t1 ht1
      simp only [List.mem_singleton] at ht1
      subst ht1
      refine ⟨by dsimp only; omega, ?_⟩
      dsimp only
      cases hs : o.side <;> simp only [hs]
      · have hidt := hid top (by simp)
        simp
        omega
      · have hidt := hid top (by simp)
        simp
        omega
    · simp only [List.map_cons, List.map_nil, List.length_cons, List.length_nil,
        List.take_succ_cons, List.take_zero]
    · simp only [List.map_cons, List.map_nil, List.sum_cons, List.sum_nil]
      simp only [matchableDepth, hg.2, if_pos]
      omega
    · exact ⟨rfl, trivial⟩
  case case3 =>
    rename_i o top rest hg vol o1 p htt hp x ih
    intro o2 book2 ts h hq hid
    subst htt
    exact absurd x (matchLoop_true_ne_panic comp o1 (p :: rest))
  case case4 =>
    rename_i o top rest hg vol o1 p htt hp o3 book3 ts3 x ih
    intro o2 book2 ts h hq hid
    have hqtop : 0 < top.quantity := hq top (by simp)
    have hvol : vol = top.quantity := by
      simp only [vol, p] at hp ⊢
      omega
    have hvle : vol ≤ o.quantity := by
      simp only [vol]
      omega
    obtain ⟨iha, ihb, ihc, ihd⟩ := ih x
      (fun y hy => hq y (by simp [hy]))
      (fun y hy => hid y (by simp [hy]))
    rw [matchLoop.eq_def] at h
    dsimp only at h
    rw [dif_pos hg, if_pos htt, dif_neg hp, x] at h
    dsimp only at h
    simp only [MRes.ok.injEq, Prod.mk.injEq] at h
    obtain ⟨ho, hb, ht⟩ := h
    subst ho
    subst hb
    subst ht
    refine ⟨?_, ?_, ?_, ?_⟩
    · intro t1 ht1
      rcases List.mem_cons.mp ht1 with rfl | ht1
      · refine ⟨by dsimp only; omega, ?_⟩
        dsimp only
        cases hs : o.side <;> simp only [hs]
        · have hidt := hid top (by simp)
          simp
          omega
        · have hidt := hid top (by simp)
          simp
          omega
      · exact iha t1 ht1
    · simp only [List.map_cons, List.length_cons, List.take_succ_cons, ihb]
    · have ho1q : o1.quantity = o.quantity - vol := rfl
      have hcongr : matchableDepth comp o1 rest = matchableDepth comp o rest :=
        @matchableDepth_congr comp o o1 rfl rfl rest
      rw [hcongr] at ihc
      simp only [List.map_cons, List.sum_cons, ihc]
      simp only [matchableDepth, hg.2, if_pos]
      omega
    · exact ⟨rfl, ihd⟩
  case case5 =>
    rename_i o top rest hg vol o1 p htt hp x ih
    intro o2 book2 ts h hq hid
    subst htt
    exact absurd x (matchLoop_true_ne_panic comp o1 rest)
  case case6 =>
    rename_i o top rest hg htt
    intro o2 book2 ts h hq hid
    rw [matchLoop.eq_def] at h
    dsimp only at h
    rw [dif_pos hg, if_neg htt] at h
    cases h
  case case7 =>
    rename_i o top rest hg
    intro o2 book2 ts h hq hid
    rw [matchLoop.eq_def] at h
    dsimp only at h
    rw [dif_neg hg] at h
    simp only [MRes.ok.injEq, Prod.mk.injEq] at h
    obtain ⟨-, -, ht⟩ := h
    subst ht
    refine ⟨by simp, by simp, ?_, by simp [greedySplit]⟩
    have hcase : o.quantity = 0 ∨
        (comp o.price top.price || o.orderType == OrderType.market) = false := by
      rcases Nat.eq_zero_or_pos o.quantity with hq0 | hq0
      · exact Or.inl hq0
      · right
        cases hb2 : (comp o.price top.price || o.orderType == OrderType.market)
        · rfl
        · exact absurd ⟨hq0, hb2⟩ hg
    rcases hcase with h0 | hcond
    · simp [h0]
    · simp [matchableDepth, hcond]

end Exchange
namespace Exchange

/-- **C3** — every trade emitted by one `add_order` call has positive
quantity, distinct bid/ask order ids, and the resting top order's price (the
emitted prices are exactly the prices of the consumed prefix of the opposite
queue); the per-trade quantities obey the greedy law `greedySplit` — the
k-th trade's quantity equals `min(resting-top quantity, remaining aggressor
quantity)`, the remainder shrinking by each fill — and the trade quantities
sum to the minimum of the aggressor's pre-match quantity and the matchable
depth at crossing prices.
Hypotheses: the call reaches the matching loop (open instrument, matching
ids, non-zero quantity, no zero-price or band reject) on a book whose
residents have positive quantity and previously assigned (smaller) ids. -/
theorem C3_trade_properties {pubOk : Bool} {m : Market} {o : Order}
    {res : OrderState × Nat} {m2 : Market} {ts : List Trade}
    (h : addOrder pubOk m o = .ok (res, m2, ts))
    (hmid : m.instrument.id = o.instrument)
    (hst : m.instrument.state ≠ InstrumentState.closed)
    (hqo : o.quantity ≠ 0)
    (hpo : ¬(o.price = 0 ∧ o.orderType ≠ OrderType.market))
    (hband : bandCheck { m with orderId := m.orderId + 1 }
      { o with id := m.orderId + 1 } = .ok false)
    (hqb : ∀ x ∈ m.bids, 0 < x.quantity) (hqa : ∀ x ∈ m.asks, 0 < x.quantity)
    (hib : ∀ x ∈ m.bids, x.id ≤ m.orderId) (hia : ∀ x ∈ m.asks, x.id ≤ m.orderId) :
    (∀ t ∈ ts, 0 < t.quantity ∧ t.bidOrderId ≠ t.askOrderId) ∧
    (o.side = Side.bid →
      ts.map Trade.price = (m.asks.take ts.length).map Order.price ∧
      (ts.map Trade.quantity).sum = min o.quantity (matchableDepth bidComp o m.asks) ∧
      greedySplit o.quantity ts m.asks) ∧
    (o.side = Side.ask →
      ts.map Trade.price = (m.bids.take ts.length).map Order.price ∧
      (ts.map Trade.quantity).sum = min o.quantity (matchableDepth askComp o m.bids) ∧
      greedySplit o.quantity ts m.bids) := by
  unfold addOrder at h
  dsimp only at h
  rw [if_neg (by simp [hmid]), if_neg hst, if_neg (not_or.mpr ⟨hqo, hpo⟩), hband] at h
  dsimp only at h
  cases hside : o.side <;> rw [hside] at h <;> dsimp only at h
  · cases hml : matchLoop pubOk bidComp { o with id := m.orderId + 1, side := Side.bid }
        (maintenance { m with orderId := m.orderId + 1 }).asks with
    | panic => rw [hml] at h; cases h
    | ok res2 =>
      obtain ⟨o2, asks2, ts2⟩ := res2
      rw [hml] at h
      dsimp only at h
      have hts := finishAdd_trades h
      subst hts
      rw [maintenance_asks] at hml
      obtain ⟨ha, hb, hc, hd⟩ := matchLoop_trades bidComp _ _ hml hqa
        (fun x hx => by
          have := hia x hx
          show x.id ≠ m.orderId + 1
          omega)
      refine ⟨ha, fun _ => ⟨hb, ?_, hd⟩, fun hcon => by simp [hside] at hcon⟩
      have hcongr : matchableDepth bidComp { o with id := m.orderId + 1, side := Side.bid }
          m.asks = matchableDepth bidComp o m.asks :=
        @matchableDepth_congr bidComp o
          { o with id := m.orderId + 1, side := Side.bid } rfl rfl m.asks
      rw [hcongr] at hc
      exact hc
  · cases hml : matchLoop pubOk askComp { o with id := m.orderId + 1, side := Side.ask }
        (maintenance { m with orderId := m.orderId + 1 }).bids with
    | panic => rw [hml] at h; cases h
    | ok res2 =>
      obtain ⟨o2, bids2, ts2⟩ := res2
      rw [hml] at h
      dsimp only at h
      have hts := finishAdd_trades h
      subst hts
      rw [maintenance_bids] at hml
      obtain ⟨ha, hb, hc, hd⟩ := matchLoop_trades askComp _ _ hml hqb
        (fun x hx => by
          have := hib x hx
          show x.id ≠ m.orderId + 1
          omega)
      refine ⟨ha, fun hcon => by simp [hside] at hcon, fun _ => ⟨hb, ?_, hd⟩⟩
      have hcongr : matchableDepth askComp { o with id := m.orderId + 1, side := Side.ask }
          m.bids = matchableDepth askComp o m.bids :=
        @matchableDepth_congr askComp o
          { o with id := m.orderId + 1, side := Side.ask } rfl rfl m.bids
      rw [hcongr] at hc
      exact hc

end Exchange
namespace Exchange

theorem C3_trade_properties_witness :
    (∀ t ∈ ([⟨3, 1, 1000, 50⟩, ⟨3, 2, 1010, 10⟩] : List Trade),
      0 < t.quantity ∧ t.bidOrderId ≠ t.askOrderId) ∧
    ((⟨0, 8, 500, 1100, 60, Side.bid, OrderType.day, 1, 2⟩ : Order).side = Side.bid →
      ([⟨3, 1, 1000, 50⟩, ⟨3, 2, 1010, 10⟩] : List Trade).map Trade.price =
        (([⟨1, 7, 500, 1000, 50, Side.ask, OrderType.day, 1, 2⟩,
           ⟨2, 7, 500, 1010, 40, Side.ask, OrderType.day, 1, 2⟩] : List Order).take
            ([⟨3, 1, 1000, 50⟩, ⟨3, 2, 1010, 10⟩] : List Trade).length).map Order.price ∧
      (([⟨3, 1, 1000, 50⟩, ⟨3, 2, 1010, 10⟩] : List Trade).map Trade.quantity).sum =
        min 60 (matchableDepth bidComp ⟨0, 8, 500, 1100, 60, Side.bid, OrderType.day, 1, 2⟩
          [⟨1, 7, 500, 1000, 50, Side.ask, OrderType.day, 1, 2⟩,
           ⟨2, 7, 500, 1010, 40, Side.ask, OrderType.day, 1, 2⟩]) ∧
      greedySplit 60 [⟨3, 1, 1000, 50⟩, ⟨3, 2, 1010, 10⟩]
        [⟨1, 7, 500, 1000, 50, Side.ask, OrderType.day, 1, 2⟩,
         ⟨2, 7, 500, 1010, 40, Side.ask, OrderType.day, 1, 2⟩]) ∧
    ((⟨0, 8, 500, 1100, 60, Side.bid, OrderType.day, 1, 2⟩ : Order).side = Side.ask →
      ([⟨3, 1, 1000, 50⟩, ⟨3, 2, 1010, 10⟩] : List Trade).map Trade.price =
        (([] : List Order).take
            ([⟨3, 1, 1000, 50⟩, ⟨3, 2, 1010, 10⟩] : List Trade).length).map Order.price ∧
      (([⟨3, 1, 1000, 50⟩, ⟨3, 2, 1010, 10⟩] : List Trade).map Trade.quantity).sum =
        min 60 (matchableDepth askComp ⟨0, 8, 500, 1100, 60, Side.bid, OrderType.day, 1, 2⟩
          ([] : List Order)) ∧
      greedySplit 60 [⟨3, 1, 1000, 50⟩, ⟨3, 2, 1010, 10⟩] ([] : List Order)) :=
  @C3_trade_properties true
    ⟨⟨500, [], InstrumentType.share, InstrumentState.trading, 10, 30⟩, [],
      [⟨1, 7, 500, 1000, 50, Side.ask, OrderType.day, 1, 2⟩,
       ⟨2, 7, 500, 1010, 40, Side.ask, OrderType.day, 1, 2⟩], 2, 0, 0⟩
    ⟨0, 8, 500, 1100, 60, Side.bid, OrderType.day, 1, 2⟩
    (OrderState.traded, 3)
    ⟨⟨500, [], InstrumentType.share, InstrumentState.trading, 10, 30⟩, [],
      [⟨2, 7, 500, 1010, 30, Side.ask, OrderType.day, 1, 2⟩], 3, 1, 0⟩
    [⟨3, 1, 1000, 50⟩, ⟨3, 2, 1010, 10⟩]
    (by simp [addOrder, matchLoop, bandCheck, maintenance, finishAdd,
      insertIntoRightPosition, fitPosition, REARRANGE_THRESHOLD, bidComp, askComp])
    rfl
    (by decide)
    (by decide)
    (by decide)
    (by decide)
    (by decide)
    (by decide)
    (by decide)
    (by decide)

end Exchange
